import Mathlib

/-!
Verification of the WikiExtractor core (src/WikiExtractor.py) against its
specification.  Strings are modelled as `List Char`; Python regular-expression
substitutions are modelled by explicit leftmost-match scanners feeding a
generic non-overlapping substitution engine (`gsub`), which mirrors the
semantics of `re.sub`/`str.replace`: matches are located left to right on the
original text and never overlap.
-/

namespace WikiExtractor

abbrev Str := List Char

/-! ### Basic occurrence search (models `re.search` for literal patterns) -/

/-- The literal string `pat` occurs in `s` starting at index `i`. -/
def occursAtB (s pat : Str) (i : Nat) : Bool :=
  (s.drop i).take pat.length == pat

/-- Scan indices `i, i+1, …` (at most `rem` of them) for an occurrence of `pat`. -/
def findFromAux (s pat : Str) : Nat → Nat → Option Nat
  | _, 0 => none
  | i, rem + 1 => if occursAtB s pat i then some i else findFromAux s pat (i + 1) rem

/-- Index of the first occurrence of the literal `pat` in `s` at or after `pos`
(models `re.compile(pat).search(text, pos)` for a literal pattern, returning
the match start). -/
def findFrom (s pat : Str) (pos : Nat) : Option Nat :=
  findFromAux s pat pos (s.length + 1 - pos)

def collectOutside : List (Nat × Nat) → Nat → Str → Str
  | [], st, text => text.drop st
  | (s, e) :: ms, st, text => (text.drop st).take (s - st) ++ collectOutside ms e text

/-- Lexicographic order on spans, as used by Python's `list.sort()` on pairs. -/
def spanLe (a b : Nat × Nat) : Prop := a.1 < b.1 ∨ (a.1 = b.1 ∧ a.2 ≤ b.2)

instance : DecidableRel spanLe := fun a b => by unfold spanLe; infer_instance

instance : IsTotal (Nat × Nat) spanLe := ⟨by intro a b; unfold spanLe; omega⟩

instance : IsTrans (Nat × Nat) spanLe := ⟨by intro a b c h1 h2; unfold spanLe at *; omega⟩

instance : IsAntisymm (Nat × Nat) spanLe := by
  refine ⟨fun a b h1 h2 => ?_⟩
  unfold spanLe at h1 h2
  have h3 : a.1 = b.1 := by omega
  have h4 : a.2 = b.2 := by omega
  exact Prod.ext h3 h4

/-- `matches.sort()` : Python sorts the span list lexicographically. -/
def sortSpans (ms : List (Nat × Nat)) : List (Nat × Nat) :=
  List.insertionSort spanLe ms

/-- `drop_spans(matches, text)` from the source: sort the spans, then emit only
the text outside them. -/
def drop_spans (ms : List (Nat × Nat)) (text : Str) : Str :=
  collectOutside (sortSpans ms) 0 text

/-! ### drop_nested

A line-by-line translation of `drop_nested(text, open_delim, close_delim)`
from the source, for literal delimiters (the function is only ever called
with the literal delimiter pairs `{{`/`}}` and `{|`/`|}`).  An occurrence is
represented by its start index; `m.end()` is the start plus the delimiter
length.  The Python `while` loops are expressed as fuel recursion; every
iteration strictly advances a position in the text, so fuel `text.length + 1`
never runs out. -/

/-- The `while nest: …` loop of the termination branch: repeatedly advance
`end` to the next close occurrence, once per pending nesting level, stopping
early when no further close exists.  Returns the final `end` start index. -/
def dnCloseAll (text closeD : Str) : Nat → Nat → Nat
  | 0, e => e
  | n + 1, e =>
    match findFrom text closeD (e + closeD.length) with
    | some e0 => dnCloseAll text closeD n e0
    | none => e

/-- The inner `while end.end() < next.start()` loop.  State is
`(matches, nest, start, end)`; the returned `Option Nat` is the `end` match
(`none` when the unbalanced branch set `end = None`). -/
def dnInner (text closeD : Str) (openLen : Nat) :
    Nat → List (Nat × Nat) → Nat → Nat → Nat → Nat →
    List (Nat × Nat) × Nat × Nat × Option Nat
  | 0, ms, n, st, e, _ => (ms, n, st, some e)
  | fuel + 1, ms, n, st, e, nx =>
    if e + closeD.length < nx then
      if n ≠ 0 then
        -- nest -= 1; last = end.end(); end = close_re.search(text, end.end())
        let last := e + closeD.length
        match findFrom text closeD (e + closeD.length) with
        | none =>
          -- unbalanced: matches = [(matches[0][0] or start.start(), last)]; break
          let span := match ms with
            | [] => (st, last)
            | (s0, _) :: _ => (s0, last)
          ([span], n - 1, st, none)
        | some e2 => dnInner text closeD openLen fuel ms (n - 1) st e2 nx
      else
        -- matches.append((start.start(), end.end())); start = next;
        -- end = close_re.search(text, next.end()); break
        (ms ++ [(st, e + closeD.length)], n, nx, findFrom text closeD (nx + openLen))
    else (ms, n, st, some e)

/-- The outer `while end:` loop of `drop_nested`.  Arguments after the fuel:
accumulated `matches`, `nest`, `start`, `end`, `next` (all match starts). -/
def dnOuter (text openD closeD : Str) :
    Nat → List (Nat × Nat) → Nat → Nat → Nat → Nat → List (Nat × Nat)
  | 0, ms, _, _, _, _ => ms
  | fuel + 1, ms, n, st, e, nx =>
    match findFrom text openD (nx + openD.length) with
    | none =>
      -- termination branch: close all pending nesting, record the span
      let e' := dnCloseAll text closeD n e
      ms ++ [(st, e' + closeD.length)]
    | some nx' =>
      match dnInner text closeD openD.length (text.length + 1) ms n st e nx' with
      | (ms', _, _, none) => ms'
      | (ms', n', st', some e') =>
        -- if next != start: nest += 1  (match-object identity; `start` is only
        -- ever assigned `next` itself, so it reduces to position equality)
        let n'' := if nx' ≠ st' then n' + 1 else n'
        dnOuter text openD closeD fuel ms' n'' st' e' nx'

/-- The span list accumulated by `drop_nested` before the collection loop. -/
def dnMatches (text openD closeD : Str) : List (Nat × Nat) :=
  match findFrom text openD 0 with
  | none => []
  | some st =>
    match findFrom text closeD (st + openD.length) with
    | none => []
    | some e => dnOuter text openD closeD (text.length + 1) [] 0 st e st

/-- `drop_nested(text, open_delim, close_delim)` from the source. -/
def drop_nested (text openD closeD : Str) : Str :=
  match findFrom text openD 0 with
  | none => text
  | some _ => collectOutside (dnMatches text openD closeD) 0 text

/-! ### Generic substitution engine

Models `pattern.sub(repl, text)` and `str.replace`: scan the original text
left to right; at the leftmost position where the matcher succeeds, emit the
replacement and resume scanning right after the matched span. -/

/-- A matcher maps `(text, index)` to `some (matchLength, replacement)` when
the pattern matches at that index. -/
abbrev Matcher := Str → Nat → Option (Nat × Str)

def firstMatchAux (m : Matcher) (s : Str) : Nat → Nat → Option (Nat × Nat × Str)
  | _, 0 => none
  | i, rem + 1 =>
    match m s i with
    | some (len, repl) => some (i, len, repl)
    | none => firstMatchAux m s (i + 1) rem

/-- Leftmost match of `m` in `s` at or after `pos`. -/
def firstMatch (m : Matcher) (s : Str) (pos : Nat) : Option (Nat × Nat × Str) :=
  firstMatchAux m s pos (s.length + 1 - pos)

def gsubGo (m : Matcher) (s : Str) : Nat → Nat → Str
  | 0, pos => s.drop pos
  | fuel + 1, pos =>
    match firstMatch m s pos with
    | none => s.drop pos
    | some (i, len, repl) =>
      (s.drop pos).take (i - pos) ++ repl ++ gsubGo m s fuel (i + len)

/-- Non-overlapping global substitution (the semantics of `re.sub`). -/
def gsub (m : Matcher) (s : Str) : Str :=
  gsubGo m s (s.length + 1) 0

/-- Well-formed matcher: matches are nonempty and lie inside the text. -/
def MatcherWF (m : Matcher) : Prop :=
  ∀ s i len repl, m s i = some (len, repl) → 1 ≤ len ∧ i + len ≤ s.length

/-- Shrinking matcher: every replacement is strictly shorter than its match. -/
def MatcherShrinks (m : Matcher) : Prop :=
  ∀ s i len repl, m s i = some (len, repl) → repl.length < len

/-- Number of leading characters satisfying `p`. -/
def leadCount (p : Char → Bool) : Str → Nat
  | [] => 0
  | c :: cs => if p c then leadCount p cs + 1 else 0

/-- Length of the maximal run of characters satisfying `p` starting at `i`. -/
def runAt (s : Str) (p : Char → Bool) (i : Nat) : Nat :=
  leadCount p (s.drop i)

/-- Matcher for a character-class run pattern such as `[ ]{2,}` or `\n{2,}`:
a maximal run (greedy) of characters in the class, of length at least
`minLen`, replaced by `repl`. -/
def classRunMatcher (p : Char → Bool) (minLen : Nat) (repl : Str) : Matcher :=
  fun s i =>
    let r := runAt s p i
    if minLen ≤ r then some (r, repl) else none

/-- Matcher for a literal pattern (the semantics of `str.replace`). -/
def litMatcher (pat repl : Str) : Matcher :=
  fun s i => if occursAtB s pat i then some (pat.length, repl) else none

/-- `text.replace(pat, repl)` (Python string replace). -/
def pyReplace (s pat repl : Str) : Str :=
  gsub (litMatcher pat repl) s

/-! ### Title normalization (`normalize_title`) -/

/-- Python `\s` for the ASCII range: space, tab, newline, carriage return,
form feed, vertical tab. -/
def isPyWs (c : Char) : Bool :=
  c = ' ' || c = '\t' || c = '\n' || c = '\r' || c = '\x0b' || c = '\x0c'

/-- Python `str.strip(chars)`: remove leading and trailing characters drawn
from `bad`. -/
def stripChars (bad : Str) (s : Str) : Str :=
  ((s.dropWhile bad.contains).reverse.dropWhile bad.contains).reverse

/-- ASCII model of Python `str.capitalize()`: first character uppercased,
all remaining characters lowercased. -/
def pyCapitalize : Str → Str
  | [] => []
  | c :: cs => c.toUpper :: cs.map Char.toLower

/-- `TITLE_MATCH = re.compile(r'([^:]*):(\s*)(\S(?:.*))')` applied with
`.match` (anchored at the start).  Returns the three groups: the text before
the first colon, the whitespace run after the colon, and the remainder
(a non-space character followed by the rest of the line). -/
def titleMatch (s : Str) : Option (Str × Str × Str) :=
  let g1 := s.takeWhile (fun c => !(c == ':'))
  if g1.length < s.length then
    let rest := s.drop (g1.length + 1)
    let g2 := rest.takeWhile isPyWs
    match rest.drop g2.length with
    | [] => none
    | c :: cs => some (g1, g2, c :: cs.takeWhile (fun d => !(d == '\n')))
  else none

/-- `normalize_title(title)` from the source. -/
def normalize_title (t : Str) : Str :=
  -- title = title.strip(' _')
  let t1 := stripChars [' ', '_'] t
  -- title = TITLE.sub(' ', title)  with TITLE = re.compile(r'[\s_]+')
  let t2 := gsub (classRunMatcher (fun c => isPyWs c || c = '_') 1 [' ']) t1
  match titleMatch t2 with
  | some (p, w, rest) =>
    pyCapitalize p ++ [':'] ++ (if w.isEmpty then [] else [' ']) ++ rest
  | none => pyCapitalize t2

/-! ### Page acceptance (`process_data`, `</page>` branch) -/

/-- A fully assembled page record, as accumulated by the `process_data`
scanner: captured title, redirect flag, and the raw markup body. -/
structure Page where
  title : Str
  redirect : Bool
  body : Str
  deriving DecidableEq

/-- The acceptance test applied when the `</page>` tag is seen:
`colon = title.find(':'); if colon < 0 and not redirect: …emit…`. -/
def pageAccepted (p : Page) : Bool :=
  !(p.title.contains ':') && !p.redirect

/-! ### Character classes (ASCII models of the Python classes in use) -/

/-- The character class `[{string.punctuation}]` as the regex engine compiles
it: the ASCII punctuation code points 33–47, 58–64, 91–96 and 123–126, except
the backslash (92) — inside the class the `\]` pair of `string.punctuation`
is read as an escaped `]`, so the backslash itself is consumed as the escape
and never becomes a class member. -/
def isAsciiPunct (c : Char) : Bool :=
  let n := c.toNat
  (33 ≤ n && n ≤ 47) || (58 ≤ n && n ≤ 64) || (91 ≤ n && n ≤ 96 && n ≠ 92) ||
    (123 ≤ n && n ≤ 126)

def isAsciiLetter (c : Char) : Bool :=
  ('A' ≤ c && c ≤ 'Z') || ('a' ≤ c && c ≤ 'z')

/-- Python `\w` (ASCII range): letters, digits, underscore. -/
def isWordChar (c : Char) : Bool :=
  isAsciiLetter c || c.isDigit || c == '_'

/-- Python `[^\d\W]` = word character that is not a digit: letter or
underscore. -/
def isUnderName (c : Char) : Bool :=
  isAsciiLetter c || c == '_'

/-- `DASHES = re.compile(r'[‑-―⸺⸻]')`: non-breaking hyphen through
horizontal bar, two-em dash (U+2E3A) and three-em dash (U+2E3B). -/
def isDashChar (c : Char) : Bool :=
  let n := c.toNat
  (0x2011 ≤ n && n ≤ 0x2015) || n = 0x2E3A || n = 0x2E3B

/-- `QUOTES = re.compile(r'[‘-‟]')`. -/
def isFancyQuote (c : Char) : Bool :=
  let n := c.toNat
  0x2018 ≤ n && n ≤ 0x201F

/-- The character at index `j` exists and satisfies `p`. -/
def charSatAt (s : Str) (j : Nat) (p : Char → Bool) : Bool :=
  match s.get? j with
  | some c => p c
  | none => false

/-- The character at index `j` exists and is Python whitespace. -/
def isPyWsAt (s : Str) (j : Nat) : Bool :=
  charSatAt s j isPyWs

/-! ### The final-cleanup substitutions (`clean`, lines 304–336) -/

/-- Matcher for a single-character class pattern such as `[‘-‟]`:
each occurrence of one class character is replaced. -/
def classCharMatcher (p : Char → Bool) (repl : Str) : Matcher := fun s i =>
  match s.get? i with
  | some c => if p c then some (1, repl) else none
  | none => none

/-- `PUNCTUATION = re.compile(r'\n[{punct}]+?\n')`, substituted by `'\n'`:
a newline, at least one punctuation character (the lazy quantifier stops at
the first newline reachable through punctuation characters), and a newline. -/
def punctLineMatcher : Matcher := fun s i =>
  if s.get? i == some '\n' then
    let r := runAt s isAsciiPunct (i + 1)
    if 1 ≤ r && s.get? (i + 1 + r) == some '\n' then some (r + 2, ['\n']) else none
  else none

/-- Greedy backtracking for the tail of `__[^\d\W]+__`: the largest inner
length `t ≤ bound`, `t ≥ 1`, such that `'__'` follows the inner run. -/
def underNameTryT (s : Str) (i : Nat) : Nat → Option Nat
  | 0 => none
  | t + 1 =>
    if s.get? (i + 2 + (t + 1)) == some '_' && s.get? (i + 3 + (t + 1)) == some '_' then
      some (t + 1)
    else underNameTryT s i t

/-- `UNDERSCORE_NAME = re.compile(r'__[^\d\W]+__')`, substituted by `''`. -/
def underscoreNameMatcher : Matcher := fun s i =>
  if s.get? i == some '_' && s.get? (i + 1) == some '_' then
    match underNameTryT s i (runAt s isUnderName (i + 2)) with
    | some t => some (t + 4, [])
    | none => none
  else none

/-- The lookahead `(?=.*\))`: a `)` occurs before the next newline (or the
end of the text). -/
def hasParenBeforeNl : Str → Bool
  | [] => false
  | c :: cs => if c == '\n' then false else if c == ')' then true else hasParenBeforeNl cs

/-- `RIGHT_HEAVY_DASHED_PARENTHETICALS = re.compile(r'(?<=\() - (?=.*\))')`,
substituted by `''`: the three characters `' - '` preceded by `(` and with a
`)` somewhere later on the same line. -/
def rightHeavyMatcher : Matcher := fun s i =>
  if 1 ≤ i && s.get? (i - 1) == some '(' && s.get? i == some ' ' &&
      s.get? (i + 1) == some '-' && s.get? (i + 2) == some ' ' &&
      hasParenBeforeNl (s.drop (i + 3)) then
    some (3, [])
  else none

/-- Backtracking search for `(?:\|.+?)+?\n` (first alternative of
`BAD_LINKS`), as a single fuel recursion.  In mode `true` a new repetition is
started (a `|` is expected at the position); in mode `false` one more lazy
`.+?` character is consumed, then — in Python's backtracking order — the
final `\n` is tried first, then a deeper repetition, then a longer `.+?`. -/
def badLinksGo (s : Str) : Nat → Bool → Nat → Option Nat
  | 0, _, _ => none
  | fuel + 1, true, p =>
    if s.get? p == some '|' then badLinksGo s fuel false (p + 1) else none
  | fuel + 1, false, j =>
    if charSatAt s j (fun c => !(c == '\n')) then
      if s.get? (j + 1) == some '\n' then some (j + 2)
      else
        match badLinksGo s fuel true (j + 1) with
        | some e => some e
        | none => badLinksGo s fuel false (j + 1)
    else none

/-- Lazy `\w+?` of the first `BAD_LINKS` alternative: consume word characters
one at a time, trying the repetition group after each. -/
def badLinksW (s : Str) : Nat → Nat → Option Nat
  | 0, _ => none
  | fuel + 1, j =>
    if charSatAt s j isWordChar then
      match badLinksGo s (s.length + 1) true (j + 1) with
      | some e => some e
      | none => badLinksW s fuel (j + 1)
    else none

/-- `.+?\n` of the second `BAD_LINKS` alternative: at least one non-newline
character, lazily, then a newline. -/
def badLinksDot (s : Str) : Nat → Nat → Option Nat
  | 0, _ => none
  | fuel + 1, j =>
    if charSatAt s j (fun c => !(c == '\n')) then
      if s.get? (j + 1) == some '\n' then some (j + 2)
      else badLinksDot s fuel (j + 1)
    else none

/-- Lazy `\w+?:` of the second `BAD_LINKS` alternative. -/
def badLinksAlt2W (s : Str) : Nat → Nat → Option Nat
  | 0, _ => none
  | fuel + 1, j =>
    if charSatAt s j isWordChar then
      if s.get? (j + 1) == some ':' then
        match badLinksDot s (s.length + 1) (j + 2) with
        | some e => some e
        | none => badLinksAlt2W s fuel (j + 1)
      else badLinksAlt2W s fuel (j + 1)
    else none

/-- `BAD_LINKS = re.compile(r'(?:\n\w+?(?:\|.+?)+?\n)|(?:\n\w+?:.+?\n)')`,
substituted by `''`; the first alternative is preferred. -/
def badLinksMatcher : Matcher := fun s i =>
  if s.get? i == some '\n' then
    match badLinksW s (s.length + 1) (i + 1) with
    | some e => some (e - i, [])
    | none =>
      match badLinksAlt2W s (s.length + 1) (i + 1) with
      | some e => some (e - i, [])
      | none => none
  else none

/-- `EMPTY_BRACKETS = re.compile(r'(?:\(\))|(?:\[])')`, substituted by `''`. -/
def emptyBracketsMatcher : Matcher := fun s i =>
  if (s.get? i == some '(' && s.get? (i + 1) == some ')') ||
      (s.get? i == some '[' && s.get? (i + 1) == some ']') then
    some (2, [])
  else none

/-- Greedy repetition count for `(?: ,)+` starting at `j`. -/
def emptyCommasReps (s : Str) : Nat → Nat → Nat
  | 0, _ => 0
  | fuel + 1, j =>
    if s.get? j == some ' ' && s.get? (j + 1) == some ',' then
      emptyCommasReps s fuel (j + 2) + 1
    else 0

/-- `EMPTY_COMMAS = re.compile(r',(?: ,)+')`, substituted by `','`. -/
def emptyCommasMatcher : Matcher := fun s i =>
  if s.get? i == some ',' then
    let k := emptyCommasReps s (s.length + 1) (i + 1)
    if 1 ≤ k then some (1 + 2 * k, [',']) else none
  else none

/-- `LONE_COMMA_LEFT = re.compile(r'\s?,\s?\)')`, substituted by `'('`
(so `", )"`-like text becomes an opening parenthesis — the replacement really
is `'('` in the source).  Both optional whitespace atoms are greedy;
whitespace and `','`/`')'` are disjoint characters, so Python's backtracking
over the two `\s?` atoms reduces to trying the four expansions in this
order. -/
def loneCommaLeftMatcher : Matcher := fun s i =>
  if isPyWsAt s i && s.get? (i + 1) == some ',' && isPyWsAt s (i + 2) &&
      s.get? (i + 3) == some ')' then
    some (4, ['('])
  else if isPyWsAt s i && s.get? (i + 1) == some ',' && s.get? (i + 2) == some ')' then
    some (3, ['('])
  else if s.get? i == some ',' && isPyWsAt s (i + 1) && s.get? (i + 2) == some ')' then
    some (3, ['('])
  else if s.get? i == some ',' && s.get? (i + 1) == some ')' then
    some (2, ['('])
  else none

/-- `LONE_COMMA_RIGHT = re.compile(r'\(\s?,\s?')`, substituted by `')'`;
same flattening of the two greedy `\s?` atoms. -/
def loneCommaRightMatcher : Matcher := fun s i =>
  if s.get? i == some '(' && isPyWsAt s (i + 1) && s.get? (i + 2) == some ',' &&
      isPyWsAt s (i + 3) then
    some (4, [')'])
  else if s.get? i == some '(' && isPyWsAt s (i + 1) && s.get? (i + 2) == some ',' then
    some (3, [')'])
  else if s.get? i == some '(' && s.get? (i + 1) == some ',' && isPyWsAt s (i + 2) then
    some (3, [')'])
  else if s.get? i == some '(' && s.get? (i + 1) == some ',' then
    some (2, [')'])
  else none

/-- `PLACEHOLDER_TAGS = re.compile(r'<<(?:MATH|CODE)>>_\d*')`, substituted by
`''`. -/
def placeholderTagsMatcher : Matcher := fun s i =>
  if occursAtB s "<<MATH>>_".data i || occursAtB s "<<CODE>>_".data i then
    some (9 + runAt s (fun c => c.isDigit) (i + 9), [])
  else none

/-- The one-time substitutions of the cleanup stage (lines 306–310):
TAB → space, NBSP → space, dash variants → `-`, quote variants → `"`,
placeholder tags removed. -/
def oneTimeCleanup (t : Str) : Str :=
  let t1 := pyReplace t ['\t'] [' ']
  let t2 := pyReplace t1 ['\xa0'] [' ']
  let t3 := gsub (classCharMatcher isDashChar ['-']) t2
  let t4 := gsub (classCharMatcher isFancyQuote ['"']) t3
  gsub placeholderTagsMatcher t4

/-- The substitutions of one pass of the `while old_text_len != new_text_len`
loop (lines 317–333), in source order. -/
def cleanupSubs : List Matcher :=
  [ classRunMatcher (fun c => c == ' ') 2 [' ']   -- SPACES.sub(' ', text)
  , classRunMatcher (fun c => c == '.') 4 "...".data  -- DOTS.sub('...', text)
  , punctLineMatcher                                -- PUNCTUATION.sub('\n', text)
  , underscoreNameMatcher                           -- UNDERSCORE_NAME.sub('', text)
  , rightHeavyMatcher                               -- RIGHT_HEAVY_DASHED_PARENTHETICALS.sub('', text)
  , badLinksMatcher                                 -- BAD_LINKS.sub('', text)
  , classRunMatcher (fun c => c == '"') 2 ['"']   -- DUPLICATE_QUOTES.sub('"', text)
  , emptyBracketsMatcher                            -- EMPTY_BRACKETS.sub('', text)
  , litMatcher "..".data ".".data                   -- text.replace('..', '.')
  , classRunMatcher (fun c => c == ',') 2 [',']   -- COMMAS.sub(',', text)
  , litMatcher ",.".data ".".data                   -- .replace(',.', '.')
  , litMatcher ".,.".data ".".data                  -- .replace('.,.', '.')
  , emptyCommasMatcher                              -- EMPTY_COMMAS.sub(',', text)
  , loneCommaLeftMatcher                            -- LONE_COMMA_LEFT.sub('(', text)
  , loneCommaRightMatcher                           -- LONE_COMMA_RIGHT.sub(')', text)
  , litMatcher " .".data ".".data                   -- text.replace(' .', '.')
  , litMatcher " ,".data ",".data                   -- text.replace(' ,', ',')
  , classRunMatcher (fun c => c == '\n') 2 ['\n'] -- MULTIPLE_NEWLINES.sub('\n', text)
  ]

/-- One pass of the fixed-point loop body. -/
def cleanupPass (t : Str) : Str :=
  cleanupSubs.foldl (fun acc m => gsub m acc) t

/-- The `while old_text_len != new_text_len` loop: run a pass; stop when the
length did not change, otherwise repeat on the new text. -/
def cleanupLoopAux : Nat → Str → Str
  | 0, t => t
  | fuel + 1, t =>
    if (cleanupPass t).length = t.length then cleanupPass t
    else cleanupLoopAux fuel (cleanupPass t)

def cleanupLoop (t : Str) : Str := cleanupLoopAux (t.length + 1) t

/-- Step 10 of the `clean` pipeline (lines 304–336): the one-time
substitutions followed by the fixed-point substitution loop. -/
def cleanupStage (t : Str) : Str := cleanupLoop (oneTimeCleanup t)

/-! ### Link and formatting substitutions (`clean`, lines 243–263) -/

/-- Lazy scan (regex `.*?` followed by a literal): the first position
`p ≥ j` where `stop` occurs, reachable through non-newline characters
(`.` does not match a newline without `re.DOTALL`). -/
def lazyScan (s stop : Str) : Nat → Nat → Option Nat
  | 0, _ => none
  | fuel + 1, j =>
    if occursAtB s stop j then some j
    else if charSatAt s j (fun c => !(c == '\n')) then lazyScan s stop fuel (j + 1)
    else none

/-- Lazy scan with `re.DOTALL` (`.` also matches newlines). -/
def lazyScanAll (s stop : Str) : Nat → Nat → Option Nat
  | 0, _ => none
  | fuel + 1, j =>
    if occursAtB s stop j then some j
    else if j < s.length then lazyScanAll s stop fuel (j + 1)
    else none

/-- `BOLD_ITALIC = re.compile(r"'''''([^']*?)'''''")`, substituted by `\1`:
five quotes, a lazy run of non-quote characters, five quotes.  The inner class
excludes quotes, so the lazy run necessarily extends to the full non-quote run
and the closing quotes must follow it directly. -/
def boldItalicMatcher : Matcher := fun s i =>
  if occursAtB s "'''''".data i then
    let r := runAt s (fun c => !(c == '\'')) (i + 5)
    if occursAtB s "'''''".data (i + 5 + r) then
      some (r + 10, (s.drop (i + 5)).take r)
    else none
  else none

/-- `BOLD = re.compile(r"'''(.*?)'''")`, substituted by `\1`. -/
def boldMatcher : Matcher := fun s i =>
  if occursAtB s "'''".data i then
    match lazyScan s "'''".data (s.length + 1) (i + 3) with
    | some p => some (p + 3 - i, (s.drop (i + 3)).take (p - (i + 3)))
    | none => none
  else none

/-- `ITALIC_QUOTE = re.compile(r"''\"(.*?)\"''")`, substituted by
`&quot;\1&quot;`. -/
def italicQuoteMatcher : Matcher := fun s i =>
  if occursAtB s "''\"".data i then
    match lazyScan s "\"''".data (s.length + 1) (i + 3) with
    | some p =>
      some (p + 3 - i, "&quot;".data ++ (s.drop (i + 3)).take (p - (i + 3)) ++ "&quot;".data)
    | none => none
  else none

/-- `ITALIC = re.compile(r"''([^']*)''")`, substituted by `&quot;\1&quot;`:
the greedy non-quote run must be followed directly by two quotes (shorter
runs end on a non-quote character, so backtracking cannot succeed). -/
def italicMatcher : Matcher := fun s i =>
  if occursAtB s "''".data i then
    let r := runAt s (fun c => !(c == '\'')) (i + 2)
    if occursAtB s "''".data (i + 2 + r) then
      some (r + 4, "&quot;".data ++ (s.drop (i + 2)).take r ++ "&quot;".data)
    else none
  else none

/-- `QUOTE_QUOTE = re.compile(r'""(.*?)""')`, substituted by `\1`. -/
def quoteQuoteMatcher : Matcher := fun s i =>
  if occursAtB s "\"\"".data i then
    match lazyScan s "\"\"".data (s.length + 1) (i + 2) with
    | some p => some (p + 2 - i, (s.drop (i + 2)).take (p - (i + 2)))
    | none => none
  else none

/-- `EXTERNAL_LINK = re.compile(r'\[\w+.*? (.*?)]')`, substituted by `\1`.
Neither a space nor `]` is a word character, so backtracking over the length
of `\w+` never changes the first reachable space or bracket; one pass with
the maximal word run is equivalent. -/
def externalLinkMatcher : Matcher := fun s i =>
  if s.get? i == some '[' && charSatAt s (i + 1) isWordChar then
    let w := runAt s isWordChar (i + 1)
    match lazyScan s " ".data (s.length + 1) (i + 1 + w) with
    | some sp =>
      match lazyScan s "]".data (s.length + 1) (sp + 1) with
      | some cl => some (cl + 1 - i, (s.drop (sp + 1)).take (cl - (sp + 1)))
      | none => none
    | none => none
  else none

/-- Greedy backtracking for the `[&\]]*]` tail of `EXTERNAL_LINK_NO_ANCHOR`:
the largest `v ≤ bound` such that `]` stands at `base + v`. -/
def extLinkNoAnchorTryV (s : Str) (base : Nat) : Nat → Option Nat
  | 0 => if s.get? base == some ']' then some 0 else none
  | v + 1 =>
    if s.get? (base + v + 1) == some ']' then some (v + 1)
    else extLinkNoAnchorTryV s base v

/-- `EXTERNAL_LINK_NO_ANCHOR = re.compile(r'\[\w+[&\]]*]')`, substituted by
`''`. -/
def externalLinkNoAnchorMatcher : Matcher := fun s i =>
  if s.get? i == some '[' && charSatAt s (i + 1) isWordChar then
    let w := runAt s isWordChar (i + 1)
    match extLinkNoAnchorTryV s (i + 1 + w) (runAt s (fun c => c == '&' || c == ']') (i + 1 + w)) with
    | some v => some (w + v + 2, [])
    | none => none
  else none

/-- Scan for `([^[]*?)(?:\|([^[]*?))?]]` starting at `p` (the content of a
`WIKI_LINK` after `[[`), following Python's backtracking order: at each lazy
extent of the first group, the optional `|`-group (greedy, so tried first) and
then the bare `]]` are attempted before the group grows by one non-`[`
character.  Returns the end of group 1, the optional span of group 2, and the
position just after `]]`. -/
def wikiLinkScan2 (s : Str) : Nat → Nat → Option Nat
  | 0, _ => none
  | fuel + 1, q =>
    if occursAtB s "]]".data q then some q
    else if charSatAt s q (fun c => !(c == '[')) then wikiLinkScan2 s fuel (q + 1)
    else none

def wikiLinkScan1 (s : Str) : Nat → Nat → Option (Nat × Option (Nat × Nat) × Nat)
  | 0, _ => none
  | fuel + 1, p =>
    if s.get? p == some '|' then
      match wikiLinkScan2 s (s.length + 1) (p + 1) with
      | some g2end => some (p, some (p + 1, g2end), g2end + 2)
      | none => wikiLinkScan1 s fuel (p + 1)
    else if occursAtB s "]]".data p then some (p, none, p + 2)
    else if charSatAt s p (fun c => !(c == '[')) then wikiLinkScan1 s fuel (p + 1)
    else none

/-- `WIKI_LINK = re.compile(r'\[\[([^[]*?)(?:\|([^[]*?))?]](\w*)')` with the
replacement function `make_anchor_tag`: the anchor is group 2 when present
and nonempty, else group 1, with the trailing word-character run (plural
suffixes) appended. -/
def wikiLinkMatcher : Matcher := fun s i =>
  if occursAtB s "[[".data i then
    match wikiLinkScan1 s (s.length + 1) (i + 2) with
    | some (g1end, g2opt, after) =>
      let link := (s.drop (i + 2)).take (g1end - (i + 2))
      let anchor := match g2opt with
        | some (g2s, g2e) =>
          let a := (s.drop g2s).take (g2e - g2s)
          if a.isEmpty then link else a
        | none => link
      let trail := runAt s isWordChar after
      some (after + trail - i, anchor ++ (s.drop after).take trail)
    | none => none
  else none

/-- Position of the last `|` on the current line at or after `j` (the greedy
`.*` of `PARAMETRIZED_LINK` followed by `\|` matches up to the last pipe
before the next newline). -/
def lastPipeBeforeNl (s : Str) : Nat → Nat → Option Nat → Option Nat
  | 0, _, best => best
  | fuel + 1, j, best =>
    match s.get? j with
    | none => best
    | some c =>
      if c == '\n' then best
      else lastPipeBeforeNl s fuel (j + 1) (if c == '|' then some j else best)

/-- `PARAMETRIZED_LINK = re.compile(r'(?:\[\[.*\|)|(?:]])')`, substituted by
`''`; the first alternative is preferred at each position. -/
def parametrizedLinkMatcher : Matcher := fun s i =>
  if occursAtB s "[[".data i then
    match lastPipeBeforeNl s (s.length + 1) (i + 2) none with
    | some pl => some (pl + 1 - i, [])
    | none => if occursAtB s "]]".data i then some (2, []) else none
  else if occursAtB s "]]".data i then some (2, [])
  else none

/-! ### Entity unescaping (`unescape`, lines 139–156)

`unescape` resolves `&#?(\w+);` references with the `fixup` callback.  The
callback can raise: `int` on non-digit text and `chr` on a code point above
0x10FFFF raise `ValueError`, aborting the whole substitution; this is
modelled by `Option` (`none` = the Python call raises). -/

/-- A subset of Python's `html.entities.name2codepoint` covering the common
named entities (the full table has ~250 entries; names outside the embedded
table behave like unknown entities and are left verbatim, which is also the
code's behaviour for every name outside the real table). -/
def name2codepoint : List (Str × Nat) :=
  [ ("amp".data, 38), ("quot".data, 34), ("lt".data, 60), ("gt".data, 62)
  , ("nbsp".data, 160), ("mdash".data, 8212), ("ndash".data, 8211)
  , ("sect".data, 167), ("para".data, 182), ("middot".data, 183)
  , ("laquo".data, 171), ("raquo".data, 187), ("deg".data, 176)
  , ("plusmn".data, 177), ("times".data, 215), ("divide".data, 247)
  , ("eacute".data, 233), ("egrave".data, 232), ("agrave".data, 224)
  , ("ccedil".data, 231), ("ouml".data, 246), ("uuml".data, 252)
  , ("auml".data, 228), ("szlig".data, 223), ("alpha".data, 945)
  , ("beta".data, 946), ("gamma".data, 947), ("copy".data, 169)
  , ("reg".data, 174), ("trade".data, 8482), ("hellip".data, 8230) ]

def lookupEntity (code : Str) : Option Nat :=
  (name2codepoint.find? (fun kv => kv.1 == code)).map (fun kv => kv.2)

/-- `int(text)` on a `\w+` token: succeeds only when every character is an
ASCII digit (and the token is nonempty). -/
def parseDecDigits : Str → Option Nat
  | [] => none
  | l => parseDecGo l 0
where parseDecGo : Str → Nat → Option Nat
  | [], acc => some acc
  | c :: cs, acc =>
    if c.isDigit then parseDecGo cs (acc * 10 + (c.toNat - 48)) else none

def hexDigitVal (c : Char) : Option Nat :=
  if c.isDigit then some (c.toNat - 48)
  else if 'a' ≤ c && c ≤ 'f' then some (c.toNat - 87)
  else if 'A' ≤ c && c ≤ 'F' then some (c.toNat - 55)
  else none

/-- `int(text, 16)`. -/
def parseHexDigits : Str → Option Nat
  | [] => none
  | l => parseHexGo l 0
where parseHexGo : Str → Nat → Option Nat
  | [], acc => some acc
  | c :: cs, acc =>
    match hexDigitVal c with
    | some v => parseHexGo cs (acc * 16 + v)
    | none => none

/-- Python `chr`: accepts code points 0–0x10FFFF and raises `ValueError`
beyond.  Lean's `Char` cannot represent the surrogate range 0xD800–0xDFFF
(which Python's `chr` does accept); no input in this development produces a
surrogate, and the model maps that range to the error case as well. -/
def pyChr (n : Nat) : Option Char :=
  if n < 0xD800 || (0xE000 ≤ n && n ≤ 0x10FFFF) then some (Char.ofNat n)
  else none

/-- One `&#?(\w+);` reference at `i`: `some (len, some repl)` for a resolved
or left-verbatim reference, `some (len, none)` when `fixup` raises. -/
def entityMatch (s : Str) (i : Nat) : Option (Nat × Option Str) :=
  if s.get? i == some '&' then
    let hasHash := s.get? (i + 1) == some '#'
    let wstart := if hasHash then i + 2 else i + 1
    let w := runAt s isWordChar wstart
    if 1 ≤ w && s.get? (wstart + w) == some ';' then
      let code := (s.drop wstart).take w
      let mlen := wstart + w + 1 - i
      if hasHash then
        if code.head? == some 'x' then
          match parseHexDigits (code.drop 1) with
          | some n =>
            match pyChr n with
            | some c => some (mlen, some [c])
            | none => some (mlen, none)
          | none => some (mlen, none)
        else
          match parseDecDigits code with
          | some n =>
            match pyChr n with
            | some c => some (mlen, some [c])
            | none => some (mlen, none)
          | none => some (mlen, none)
      else
        match lookupEntity code with
        | some n => some (mlen, some [Char.ofNat n])
        | none => some (mlen, some ((s.drop i).take mlen))
    else none
  else none

def entityFirst (s : Str) : Nat → Nat → Option (Nat × Nat × Option Str)
  | _, 0 => none
  | i, rem + 1 =>
    match entityMatch s i with
    | some (len, repl) => some (i, len, repl)
    | none => entityFirst s (i + 1) rem

def unescapeGo (s : Str) : Nat → Nat → Option Str
  | 0, pos => some (s.drop pos)
  | fuel + 1, pos =>
    match entityFirst s pos (s.length + 1 - pos) with
    | none => some (s.drop pos)
    | some (_, _, none) => none
    | some (i, len, some repl) =>
      (unescapeGo s fuel (i + len)).map
        (fun rest => (s.drop pos).take (i - pos) ++ repl ++ rest)

/-- `unescape(text)` from the source; `none` models a raised `ValueError`. -/
def unescapeE (s : Str) : Option Str :=
  unescapeGo s (s.length + 1) 0

/-! ### HTML comment/tag matchers (clean, lines 271–302, and `init`) -/

/-- Case-insensitive ASCII comparison of `s` at `i` against lowercase `pat`. -/
def matchesCIAux : Str → Str → Bool
  | _, [] => true
  | [], _ :: _ => false
  | c :: cs, d :: ds => (c.toLower == d) && matchesCIAux cs ds

def matchesCI (s pat : Str) (i : Nat) : Bool :=
  matchesCIAux (s.drop i) pat

/-- `COMMENT = re.compile(r'<!--.*?-->', re.DOTALL)`. -/
def commentMatcher : Matcher := fun s i =>
  if occursAtB s "<!--".data i then
    match lazyScanAll s "-->".data (s.length + 1) (i + 4) with
    | some p => some (p + 3 - i, [])
    | none => none
  else none

/-- `re.compile(r'<\s*%s\b[^/]*/\s*>' % tag, re.DOTALL | re.IGNORECASE)`
(self-closing tags).  The `[^/]*` run must reach the first slash, and the
whitespace run after it must reach a `>`. -/
def selfClosingMatcher (tag : Str) : Matcher := fun s i =>
  if s.get? i == some '<' then
    let p := i + 1 + runAt s isPyWs (i + 1)
    if matchesCI s tag p && !(charSatAt s (p + tag.length) isWordChar) then
      let q := p + tag.length
      let r := runAt s (fun c => !(c == '/')) q
      if charSatAt s (q + r) (fun c => c == '/') then
        let v := runAt s isPyWs (q + r + 1)
        if s.get? (q + r + 1 + v) == some '>' then
          some (q + r + 1 + v + 1 - i, [])
        else none
      else none
    else none
  else none

/-- `left = re.compile(r'<\s*%s\b[^>]*>' % tag, re.IGNORECASE)`
(opening ignored tag). -/
def ignoredLeftMatcher (tag : Str) : Matcher := fun s i =>
  if s.get? i == some '<' then
    let p := i + 1 + runAt s isPyWs (i + 1)
    if matchesCI s tag p && !(charSatAt s (p + tag.length) isWordChar) then
      let q := p + tag.length
      let r := runAt s (fun c => !(c == '>')) q
      if charSatAt s (q + r) (fun c => c == '>') then some (q + r + 1 - i, [])
      else none
    else none
  else none

/-- `right = re.compile(r'<\s*/\s*%s>' % tag, re.IGNORECASE)`
(closing ignored tag). -/
def ignoredRightMatcher (tag : Str) : Matcher := fun s i =>
  if s.get? i == some '<' then
    let w := runAt s isPyWs (i + 1)
    if s.get? (i + 1 + w) == some '/' then
      let v := runAt s isPyWs (i + 2 + w)
      let p := i + 2 + w + v
      if matchesCI s tag p && s.get? (p + tag.length) == some '>' then
        some (p + tag.length + 1 - i, [])
      else none
    else none
  else none

/-- First position `j ≥ start` where `m` matches (the lazy `.*?` with
`re.DOTALL` before a closing-tag pattern). -/
def scanUntilMatch (m : Matcher) (s : Str) : Nat → Nat → Option (Nat × Nat)
  | 0, _ => none
  | fuel + 1, j =>
    match m s j with
    | some (len, _) => some (j, len)
    | none => if j < s.length then scanUntilMatch m s fuel (j + 1) else none

/-- `re.compile(r'<\s*%s\b[^>]*>.*?<\s*/\s*%s>' % (tag, tag), re.DOTALL |
re.IGNORECASE)` (discarded elements, removed with their content). -/
def discardElementMatcher (tag : Str) : Matcher := fun s i =>
  match ignoredLeftMatcher tag s i with
  | some (olen, _) =>
    match scanUntilMatch (ignoredRightMatcher tag) s (s.length + 1) (i + olen) with
    | some (j, clen) => some (j + clen - i, [])
    | none => none
  | none => none

/-- The opening part `<\s*%s(\s*| [^>]+?)>` of a placeholder-tag pattern:
the group's first alternative (a whitespace run directly before `>`) is
preferred; otherwise a space and a lazy nonempty attribute run up to the
first `>`. -/
def placeholderOpenMatcher (tag : Str) : Matcher := fun s i =>
  if s.get? i == some '<' then
    let p := i + 1 + runAt s isPyWs (i + 1)
    if matchesCI s tag p then
      let q := p + tag.length
      let v := runAt s isPyWs q
      if s.get? (q + v) == some '>' then some (q + v + 1 - i, [])
      else if s.get? q == some ' ' then
        let r := runAt s (fun c => !(c == '>')) (q + 1)
        if 1 ≤ r && charSatAt s (q + 1 + r) (fun c => c == '>') then
          some (q + 1 + r + 1 - i, [])
        else none
      else none
    else none
  else none

/-- The closing part `<\s*/\s*%s\s*>` of a placeholder-tag pattern. -/
def placeholderCloseMatcher (tag : Str) : Matcher := fun s i =>
  if s.get? i == some '<' then
    let w := runAt s isPyWs (i + 1)
    if s.get? (i + 1 + w) == some '/' then
      let v := runAt s isPyWs (i + 2 + w)
      let p := i + 2 + w + v
      if matchesCI s tag p then
        let u := runAt s isPyWs (p + tag.length)
        if s.get? (p + tag.length + u) == some '>' then
          some (p + tag.length + u + 1 - i, [])
        else none
      else none
    else none
  else none

/-- `re.compile(r'<\s*%s(\s*| [^>]+?)>.*?<\s*/\s*%s\s*>' % (tag, tag),
re.DOTALL | re.IGNORECASE)` (placeholder elements). -/
def placeholderElemMatcher (tag : Str) : Matcher := fun s i =>
  match placeholderOpenMatcher tag s i with
  | some (olen, _) =>
    match scanUntilMatch (placeholderCloseMatcher tag) s (s.length + 1) (i + olen) with
    | some (j, clen) => some (j + clen - i, [])
    | none => none
  | none => none

/-- All non-overlapping leftmost matches of `m` in `s` (`finditer`), as
`(start, length)` pairs. -/
def findAllMatchesGo (m : Matcher) (s : Str) : Nat → Nat → List (Nat × Nat)
  | 0, _ => []
  | fuel + 1, pos =>
    match firstMatch m s pos with
    | none => []
    | some (i, len, _) => (i, len) :: findAllMatchesGo m s fuel (i + len)

def findAllMatches (m : Matcher) (s : Str) : List (Nat × Nat) :=
  findAllMatchesGo m s (s.length + 1) 0

/-- `finditer` matches as half-open spans, for `drop_spans`. -/
def findAllSpans (m : Matcher) (s : Str) : List (Nat × Nat) :=
  (findAllMatches m s).map (fun il => (il.1, il.1 + il.2))

def self_closing_tags : List Str :=
  ["br".data, "hr".data, "nobr".data, "ref".data, "references".data]

def ignored_tags : List Str :=
  [ "a".data, "b".data, "big".data, "blockquote".data, "center".data
  , "cite".data, "div".data, "em".data, "font".data, "h1".data, "h2".data
  , "h3".data, "h4".data, "hiero".data, "i".data, "kbd".data, "nowiki".data
  , "p".data, "plaintext".data, "s".data, "small".data, "span".data
  , "strike".data, "strong".data, "sub".data, "sup".data, "tt".data
  , "u".data, "var".data ]

/-- `discard_elements` (a Python set literal, embedded in the order written
in the source; the set's iteration order is unspecified, but each deletion
pass is independent so the order only matters for exotic overlapping inputs). -/
def discard_elements : List Str :=
  [ "gallery".data, "timeline".data, "noinclude".data, "pre".data
  , "table".data, "tr".data, "td".data, "th".data, "caption".data
  , "form".data, "input".data, "select".data, "option".data
  , "textarea".data, "ul".data, "li".data, "ol".data, "dl".data, "dt".data
  , "dd".data, "menu".data, "dir".data, "ref".data, "references".data
  , "img".data, "imagemap".data, "source".data ]

/-- The merged span collection of `clean` (lines 271–290): HTML comments,
self-closing tags, and both sides of every ignored tag, removed in one
`drop_spans` pass. -/
def cleanSpans (t : Str) : List (Nat × Nat) :=
  findAllSpans commentMatcher t ++
    (self_closing_tags.map (fun tag => findAllSpans (selfClosingMatcher tag) t)).flatten ++
    (ignored_tags.map (fun tag =>
      findAllSpans (ignoredLeftMatcher tag) t ++
        findAllSpans (ignoredRightMatcher tag) t)).flatten

/-- The placeholder loop of `clean` (lines 296–299): matches are found on the
text as it stood when `finditer` was called, then each matched substring is
replaced everywhere (`str.replace`) by `marker_i`, numbering from 1. -/
def applyPlaceholdersGo (orig marker : Str) : List (Nat × Nat) → Nat → Str → Str
  | [], _, t => t
  | il :: ms, k, t =>
    applyPlaceholdersGo orig marker ms (k + 1)
      (pyReplace t ((orig.drop il.1).take il.2)
        (marker ++ '_' :: (Nat.repr k).data))

def applyPlaceholders (tag marker : Str) (t : Str) : Str :=
  applyPlaceholdersGo t marker (findAllMatches (placeholderElemMatcher tag) t) 1 t

def placeholder_tags : List (Str × Str) :=
  [("math".data, "<<MATH>>".data), ("code".data, "<<CODE>>".data)]

/-- `str.split('\n')`. -/
def splitNl (s : Str) : List Str :=
  splitNlAux s []
where splitNlAux : Str → Str → List Str
  | [], acc => [acc.reverse]
  | c :: cs, acc =>
    if c == '\n' then acc.reverse :: splitNlAux cs [] else splitNlAux cs (c :: acc)

/-- `PREFORMATTED = re.compile(r'^ .*?$', re.MULTILINE)`, substituted by `''`:
on every line beginning with a space, the match covers the whole line content
(the lazy `.*?` must grow until `$`), so the line is emptied and its newline
survives. -/
def preformattedSub (t : Str) : Str :=
  List.intercalate ['\n']
    ((splitNl t).map (fun l => if l.head? == some ' ' then [] else l))

/-! ### The `clean` pipeline (lines 239–336) -/

/-- `clean(text)` from the source; `none` models the `ValueError` that
`unescape` raises on malformed or out-of-range character references.
The regex delimiters `r'{{'`, `r'}}'`, `r'{\|'`, `r'\|}'` denote the literal
strings `{{`, `}}`, `{|`, `|}`. -/
def cleanE (text : Str) : Option Str :=
  let t1 := drop_nested text "\x7b\x7b".data "\x7d\x7d".data
  let t2 := drop_nested t1 "\x7b|".data "|\x7d".data
  let t3 := gsub wikiLinkMatcher t2
  let t4 := gsub parametrizedLinkMatcher t3
  let t5 := gsub externalLinkMatcher t4
  let t6 := gsub externalLinkNoAnchorMatcher t5
  let t7 := gsub boldItalicMatcher t6
  let t8 := gsub boldMatcher t7
  let t9 := gsub italicQuoteMatcher t8
  let t10 := gsub italicMatcher t9
  let t11 := gsub quoteQuoteMatcher t10
  let t12 := pyReplace (pyReplace t11 "'''".data []) "''".data "&quot;".data
  match unescapeE t12 with
  | none => none
  | some t13 =>
    match unescapeE t13 with
    | none => none
    | some t14 =>
      let t15 := drop_spans (cleanSpans t14) t14
      let t16 := discard_elements.foldl
        (fun acc tag => gsub (discardElementMatcher tag) acc) t15
      let t17 := placeholder_tags.foldl
        (fun acc tm => applyPlaceholders tm.1 tm.2 acc) t16
      let t18 := preformattedSub t17
      some (cleanupStage t18)

/-! ### The paragraph compactor (`compact`, lines 339–394) -/

/-- `L` consecutive `=` characters stand at `pos` (the backreference `\1`). -/
def hasEqRun (s : Str) (pos L : Nat) : Bool :=
  occursAtB s (List.replicate L '=') pos

/-- Greedy `\s*` before the backreference: try the whitespace amounts from
`v` down to `0`. -/
def sectionTryV (line : Str) (L pos : Nat) : Nat → Option Nat
  | 0 => if hasEqRun line pos L then some 0 else none
  | v + 1 =>
    if hasEqRun line (pos + v + 1) L then some (v + 1)
    else sectionTryV line L pos v

/-- Lazy `(.*?)` of `SECTION`: grow the content one non-newline character at
a time; at each extent try the greedy `\s*` and the backreference.  Returns
the end position of the content. -/
def sectionTryK (line : Str) (L : Nat) : Nat → Nat → Option Nat
  | 0, _ => none
  | fuel + 1, j =>
    match sectionTryV line L j (runAt line isPyWs j) with
    | some _ => some j
    | none =>
      if charSatAt line j (fun c => !(c == '\n')) then
        sectionTryK line L fuel (j + 1)
      else none

/-- Greedy `\s*` after the `=` run: try the whitespace amounts from `w` down
to `0`; returns the content's start and end. -/
def sectionTryW (line : Str) (L base : Nat) : Nat → Option (Nat × Nat)
  | 0 =>
    match sectionTryK line L (line.length + 1) base with
    | some jend => some (base, jend)
    | none => none
  | w + 1 =>
    match sectionTryK line L (line.length + 1) (base + w + 1) with
    | some jend => some (base + w + 1, jend)
    | none => sectionTryW line L base w

/-- Greedy `(==+)`: try the delimiter lengths from the full leading `=` run
down to 2. -/
def sectionTryL (line : Str) : Nat → Option (Nat × Nat × Nat)
  | 0 => none
  | 1 => none
  | L + 2 =>
    match sectionTryW line (L + 2) (L + 2) (runAt line isPyWs (L + 2)) with
    | some (cs, ce) => some (L + 2, cs, ce)
    | none => sectionTryL line (L + 1)

/-- `SECTION = re.compile(r'(==+)\s*(.*?)\s*\1')` applied with `.match`
(anchored at the line start; trailing text after the match is allowed).
Returns the heading level (`len(m.group(1))`) and the title (`m.group(2)`). -/
def sectionM (line : Str) : Option (Nat × Str) :=
  match sectionTryL line (runAt line (fun c => c == '=') 0) with
  | some (L, cs, ce) => some (L, (line.drop cs).take (ce - cs))
  | none => none

/-- `headers[lev] = title`: Python dicts update in place, preserving the
insertion position of an existing key, and append new keys. -/
def dictSet (hs : List (Nat × Str)) (k : Nat) (v : Str) : List (Nat × Str) :=
  if hs.any (fun kv => kv.1 == k) then
    hs.map (fun kv => if kv.1 == k then (k, v) else kv)
  else hs ++ [(k, v)]

/-- `items = list(headers.items()); items.sort()` — the pending header texts
in ascending level order (keys are distinct, so the value order is
determined). -/
def headerSortedVals (hs : List (Nat × Str)) : List Str :=
  (List.insertionSort (fun a b : Nat × Str => a.1 ≤ b.1) hs).map (fun kv => kv.2)

/-- `f'<h{lev}>{title}</h{lev}>'` (only used when `structure=True`). -/
def mkHeaderLine (lev : Nat) (title : Str) : Str :=
  "<h".data ++ (Nat.repr lev).data ++ ">".data ++ title ++
    "</h".data ++ (Nat.repr lev).data ++ ">".data

/-- Python `title[-1] not in '!?'` negated. -/
def endsBangQuery (t : Str) : Bool :=
  t.getLast? == some '!' || t.getLast? == some '?'

/-- The per-line state machine of `compact` as a recursion over the lines,
carrying `(page, headers, empty_section)`. -/
def compactGo (structureFlag : Bool) :
    List Str → List Str → List (Nat × Str) → Bool → List Str
  | [], page, _, _ => page
  | line :: rest, page, headers, emptySection =>
    if line.isEmpty then compactGo structureFlag rest page headers emptySection
    else
      match sectionM line with
      | some lt =>
        -- Handle section titles
        let lev := lt.1
        let title := lt.2
        let page1 := if structureFlag then page ++ [mkHeaderLine lev title] else page
        let title2 :=
          if !title.isEmpty && !(endsBangQuery title) then title ++ ['.'] else title
        let headers2 := (dictSet headers lev title2).filter (fun kv => !(lev < kv.1))
        compactGo structureFlag rest page1 headers2 true
      | none =>
        if line.take 2 == "++".data then
          -- Handle page title: title = line[2:-2]
          let title := (line.drop 2).take (line.length - 4)
          let page1 :=
            if title.isEmpty then page
            else if endsBangQuery title then page ++ [title]
            else page ++ [title ++ ['.']]
          compactGo structureFlag rest page1 headers emptySection
        else if charSatAt line 0 (fun c => c == '*' || c == '#' || c == ':' || c == ';') then
          -- handle lists
          if structureFlag then
            compactGo structureFlag rest
              (page ++ ["<li>".data ++ line.drop 1 ++ "</li>".data]) headers emptySection
          else compactGo structureFlag rest page headers emptySection
        else if charSatAt line 0 (fun c => c == '\x7b' || c == '|') ||
            line.getLast? == some '\x7d' then
          -- Drop residuals of lists
          compactGo structureFlag rest page headers emptySection
        else if (line.head? == some '(' && line.getLast? == some ')') ||
            (stripChars ['.', '-'] line).isEmpty then
          -- Drop irrelevant lines
          compactGo structureFlag rest page headers emptySection
        else if !headers.isEmpty then
          compactGo structureFlag rest (page ++ headerSortedVals headers ++ [line]) [] false
        else if !emptySection then
          compactGo structureFlag rest (page ++ [line]) headers emptySection
        else compactGo structureFlag rest page headers emptySection

/-- `compact(text, structure)` from the source. -/
def compact (text : Str) (structureFlag : Bool) : List Str :=
  compactGo structureFlag (splitNl text) [] [] false

/-- The per-page output of `wiki_document_sentences`: the title marker line
followed by the compacted lines of the cleaned text (`none` when `clean`
raises). -/
def wikiDocLines (title text : Str) : Option (List Str) :=
  match cleanE text with
  | none => none
  | some ct => some (("<<<".data ++ title ++ ">>>".data) :: compact ct false)

/-- The exact line stream that `process_data` writes to the output sink.
At each `</page>` tag the acceptance test (`title.find(':') < 0 and not
redirect`) decides whether `wiki_document_sentences` is called; that function
runs `clean(text)` before writing anything, so when `clean` raises
`ValueError` the page contributes no lines and the exception propagates out
of `process_data` — the run aborts and no later page writes anything
either. -/
def emitOrAbort : Option (List Str) → List Str → List Str
  | some lines, rest => lines ++ rest
  | none, _ => []

def processOutput : List Page → List Str
  | [] => []
  | p :: ps =>
    if pageAccepted p then
      emitOrAbort (wikiDocLines p.title p.body) (processOutput ps)
    else processOutput ps

/-- The block of lines an accepted page contributes when `clean` succeeds. -/
def pageBlock (p : Page) : List Str :=
  (wikiDocLines p.title p.body).getD []

/-! ## Helper lemmas -/

theorem occursAtB_true_iff {s pat : Str} {i : Nat} :
    occursAtB s pat i = true ↔ (s.drop i).take pat.length = pat := by
  simp [occursAtB]

theorem occursAtB_length {s pat : Str} {i : Nat} (hp : pat ≠ [])
    (h : occursAtB s pat i = true) : i + pat.length ≤ s.length := by
  rw [occursAtB_true_iff] at h
  have hlen : (List.take pat.length (List.drop i s)).length = pat.length := by rw [h]
  rw [List.length_take, List.length_drop] at hlen
  have hple : 0 < pat.length := List.length_pos.mpr hp
  omega

theorem findFromAux_some {s pat : Str} {i rem j : Nat}
    (h : findFromAux s pat i rem = some j) :
    i ≤ j ∧ occursAtB s pat j = true ∧ ∀ k, i ≤ k → k < j → occursAtB s pat k = false := by
  induction rem generalizing i with
  | zero => simp [findFromAux] at h
  | succ rem ih =>
    by_cases hocc : occursAtB s pat i = true
    · simp [findFromAux, hocc] at h
      subst h
      exact ⟨Nat.le_refl _, hocc, fun k hk1 hk2 => absurd hk1 (by omega)⟩
    · simp [findFromAux, hocc] at h
      obtain ⟨h1, h2, h3⟩ := ih h
      refine ⟨by omega, h2, fun k hk1 hk2 => ?_⟩
      rcases Nat.eq_or_lt_of_le hk1 with rfl | hk
      · exact Bool.not_eq_true _ ▸ (by simpa using hocc)
      · exact h3 k hk hk2

theorem findFromAux_eq_none {s pat : Str} {i rem : Nat}
    (h : ∀ k, i ≤ k → k < i + rem → occursAtB s pat k = false) :
    findFromAux s pat i rem = none := by
  induction rem generalizing i with
  | zero => rfl
  | succ rem ih =>
    have h0 : occursAtB s pat i = false := h i (Nat.le_refl _) (by omega)
    simp [findFromAux, h0]
    exact ih fun k hk1 hk2 => h k (by omega) (by omega)

theorem findFromAux_eq_some {s pat : Str} {i rem j : Nat}
    (hij : i ≤ j) (hwin : j < i + rem) (hocc : occursAtB s pat j = true)
    (hmin : ∀ k, i ≤ k → k < j → occursAtB s pat k = false) :
    findFromAux s pat i rem = some j := by
  induction rem generalizing i with
  | zero => omega
  | succ rem ih =>
    rcases Nat.eq_or_lt_of_le hij with rfl | hlt
    · simp [findFromAux, hocc]
    · have h0 : occursAtB s pat i = false := hmin i (Nat.le_refl _) hlt
      simp [findFromAux, h0]
      exact ih (by omega) (by omega) fun k hk1 hk2 => hmin k (by omega) hk2

theorem findFrom_eq_some {s pat : Str} {pos j : Nat} (hp : pat ≠ [])
    (hij : pos ≤ j) (hocc : occursAtB s pat j = true)
    (hmin : ∀ k, pos ≤ k → k < j → occursAtB s pat k = false) :
    findFrom s pat pos = some j := by
  have hjs : j + pat.length ≤ s.length := occursAtB_length hp hocc
  have hple : 0 < pat.length := List.length_pos.mpr hp
  exact findFromAux_eq_some hij (by omega) hocc hmin

theorem findFrom_eq_none {s pat : Str} {pos : Nat} (hp : pat ≠ [])
    (h : ∀ k, pos ≤ k → k ≤ s.length → occursAtB s pat k = false) :
    findFrom s pat pos = none := by
  apply findFromAux_eq_none
  intro k hk1 hk2
  by_cases hks : k ≤ s.length
  · exact h k hk1 hks
  · by_contra hocc
    have := occursAtB_length hp (by simpa using hocc)
    have hple : 0 < pat.length := List.length_pos.mpr hp
    omega

theorem findFrom_some {s pat : Str} {pos j : Nat} (h : findFrom s pat pos = some j) :
    pos ≤ j ∧ occursAtB s pat j = true ∧
      ∀ k, pos ≤ k → k < j → occursAtB s pat k = false :=
  findFromAux_some h

/-! ### Span deletion

`collectOutside` models the final loop of both `drop_nested` and `drop_spans`:
    res = ''; start = 0
    for s, e in matches: res += text[start:s]; start = e
    res += text[start:]
-/

theorem firstMatchAux_spec {m : Matcher} {s : Str} {i rem j len : Nat} {repl : Str}
    (h : firstMatchAux m s i rem = some (j, len, repl)) :
    i ≤ j ∧ m s j = some (len, repl) := by
  induction rem generalizing i with
  | zero => simp [firstMatchAux] at h
  | succ rem ih =>
    unfold firstMatchAux at h
    cases hm : m s i with
    | some p =>
      rw [hm] at h
      obtain ⟨len0, repl0⟩ := p
      simp at h
      obtain ⟨rfl, rfl, rfl⟩ := h
      exact ⟨Nat.le_refl _, hm⟩
    | none =>
      rw [hm] at h
      simp at h
      obtain ⟨h1, h2⟩ := ih h
      exact ⟨by omega, h2⟩

theorem firstMatch_spec {m : Matcher} {s : Str} {pos j len : Nat} {repl : Str}
    (h : firstMatch m s pos = some (j, len, repl)) :
    pos ≤ j ∧ m s j = some (len, repl) :=
  firstMatchAux_spec h

/-- Core dichotomy: a substitution with a well-formed shrinking matcher either
leaves the text unchanged or makes it strictly shorter. -/
theorem gsubGo_dichotomy {m : Matcher} (hwf : MatcherWF m) (hsh : MatcherShrinks m)
    (s : Str) : ∀ fuel pos, pos ≤ s.length →
    gsubGo m s fuel pos = s.drop pos ∨ (gsubGo m s fuel pos).length + pos < s.length := by
  intro fuel
  induction fuel with
  | zero => intro pos _; left; rfl
  | succ fuel ih =>
    intro pos hpos
    unfold gsubGo
    cases hfm : firstMatch m s pos with
    | none => left; rfl
    | some t =>
      obtain ⟨i, len, repl⟩ := t
      obtain ⟨hge, hm⟩ := firstMatch_spec hfm
      obtain ⟨hlen1, hbound⟩ := hwf s i len repl hm
      have hshr : repl.length < len := hsh s i len repl hm
      right
      have hrest := ih (i + len) (by omega)
      have hrlen : (gsubGo m s fuel (i + len)).length + (i + len) ≤ s.length := by
        rcases hrest with heq | hlt
        · rw [heq, List.length_drop]; omega
        · omega
      simp only [List.length_append, List.length_take, List.length_drop]
      omega

theorem gsub_dichotomy {m : Matcher} (hwf : MatcherWF m) (hsh : MatcherShrinks m)
    (s : Str) : gsub m s = s ∨ (gsub m s).length < s.length := by
  have h := gsubGo_dichotomy hwf hsh s (s.length + 1) 0 (by omega)
  rcases h with heq | hlt
  · left; simpa [gsub] using heq
  · right; simpa [gsub] using hlt

theorem gsub_length_le {m : Matcher} (hwf : MatcherWF m) (hsh : MatcherShrinks m)
    (s : Str) : (gsub m s).length ≤ s.length := by
  rcases gsub_dichotomy hwf hsh s with heq | hlt
  · rw [heq]
  · omega

/-! ### Common matchers -/

theorem leadCount_le_length (p : Char → Bool) (l : Str) : leadCount p l ≤ l.length := by
  induction l with
  | nil => simp [leadCount]
  | cons c cs ih =>
    unfold leadCount
    by_cases h : p c <;> simp [h] <;> omega

theorem runAt_le {s : Str} {p : Char → Bool} {i : Nat} : i + runAt s p i ≤ s.length ∨ runAt s p i = 0 := by
  by_cases h : i ≤ s.length
  · left
    have := leadCount_le_length p (s.drop i)
    rw [List.length_drop] at this
    unfold runAt
    omega
  · right
    unfold runAt
    rw [List.drop_eq_nil_of_le (by omega)]
    rfl

theorem classRunMatcher_wf (p : Char → Bool) (minLen : Nat) (repl : Str)
    (hmin : 1 ≤ minLen) : MatcherWF (classRunMatcher p minLen repl) := by
  intro s i len r h
  unfold classRunMatcher at h
  by_cases hc : minLen ≤ runAt s p i
  · simp [hc] at h
    obtain ⟨h1, h2⟩ := h
    subst h2
    rcases @runAt_le s p i with hle | hz
    · exact ⟨by omega, by omega⟩
    · omega
  · simp [hc] at h

theorem classRunMatcher_shrinks (p : Char → Bool) (minLen : Nat) (repl : Str)
    (hshr : repl.length < minLen) : MatcherShrinks (classRunMatcher p minLen repl) := by
  intro s i len r h
  unfold classRunMatcher at h
  by_cases hc : minLen ≤ runAt s p i
  · simp [hc] at h
    obtain ⟨h1, h2⟩ := h
    subst h2
    omega
  · simp [hc] at h

theorem litMatcher_wf {pat repl : Str} (hp : pat ≠ []) : MatcherWF (litMatcher pat repl) := by
  intro s i len r h
  unfold litMatcher at h
  by_cases hc : occursAtB s pat i <;> simp [hc] at h
  obtain ⟨rfl, rfl⟩ := h
  exact ⟨List.length_pos.mpr hp, occursAtB_length hp hc⟩

theorem litMatcher_shrinks {pat repl : Str} (h : repl.length < pat.length) :
    MatcherShrinks (litMatcher pat repl) := by
  intro s i len r hm
  unfold litMatcher at hm
  by_cases hc : occursAtB s pat i <;> simp [hc] at hm
  obtain ⟨h1, h2⟩ := hm
  subst h2
  omega

theorem occursAtB_append_exact (x pat z : Str) :
    occursAtB (x ++ (pat ++ z)) pat x.length = true := by
  rw [occursAtB_true_iff, List.drop_left]
  exact List.take_left pat z

/-! ### Well-formedness of the cleanup matchers -/

theorem get?_some_lt {s : Str} {i : Nat} {c : Char} (h : s.get? i = some c) :
    i < s.length := by
  obtain ⟨hlt, -⟩ := List.get?_eq_some.mp h
  exact hlt

theorem getBeq_lt {s : Str} {i : Nat} {c : Char} (h : (s.get? i == some c) = true) :
    i < s.length :=
  get?_some_lt (eq_of_beq h)

theorem charSatAt_lt {s : Str} {j : Nat} {p : Char → Bool}
    (h : charSatAt s j p = true) : j < s.length := by
  unfold charSatAt at h
  cases hg : s.get? j with
  | none => rw [hg] at h; simp at h
  | some c => exact get?_some_lt hg

theorem punctLineMatcher_wf : MatcherWF punctLineMatcher := by
  intro s i len repl h
  simp only [punctLineMatcher] at h
  split at h
  · split at h
    · rename_i h1 h2
      simp only [Option.some.injEq, Prod.mk.injEq] at h
      obtain ⟨h3, -⟩ := h
      simp only [Bool.and_eq_true] at h2
      have := getBeq_lt h2.2
      omega
    · exact absurd h (by simp)
  · exact absurd h (by simp)

theorem punctLineMatcher_shrinks : MatcherShrinks punctLineMatcher := by
  intro s i len repl h
  simp only [punctLineMatcher] at h
  split at h
  · split at h
    · rename_i h1 h2
      simp only [Option.some.injEq, Prod.mk.injEq] at h
      obtain ⟨h3, h4⟩ := h
      simp only [Bool.and_eq_true, decide_eq_true_eq] at h2
      subst h4
      simp only [List.length_cons, List.length_nil]
      omega
    · exact absurd h (by simp)
  · exact absurd h (by simp)

theorem underNameTryT_spec {s : Str} {i b t : Nat} (h : underNameTryT s i b = some t) :
    1 ≤ t ∧ (s.get? (i + 3 + t) == some '_') = true := by
  induction b with
  | zero => simp [underNameTryT] at h
  | succ b ih =>
    unfold underNameTryT at h
    split at h
    · rename_i h1
      simp only [Option.some.injEq] at h
      subst h
      simp only [Bool.and_eq_true] at h1
      refine ⟨by omega, ?_⟩
      have h2 := h1.2
      have h3 : i + 3 + (b + 1) = i + 3 + b + 1 := by omega
      rw [h3]
      have h4 : i + 3 + (b + 1) = i + 3 + b + 1 := by omega
      simpa [show i + 3 + b + 1 = i + 4 + b by omega,
        show i + 3 + (b + 1) = i + 4 + b by omega] using h2
    · exact ih h

theorem underscoreNameMatcher_wf : MatcherWF underscoreNameMatcher := by
  intro s i len repl h
  simp only [underscoreNameMatcher] at h
  split at h
  · split at h
    · rename_i h1 t ht
      simp only [Option.some.injEq, Prod.mk.injEq] at h
      obtain ⟨h2, -⟩ := h
      obtain ⟨h3, h4⟩ := underNameTryT_spec ht
      have := getBeq_lt h4
      omega
    · exact absurd h (by simp)
  · exact absurd h (by simp)

theorem underscoreNameMatcher_shrinks : MatcherShrinks underscoreNameMatcher := by
  intro s i len repl h
  simp only [underscoreNameMatcher] at h
  split at h
  · split at h
    · rename_i h1 t ht
      simp only [Option.some.injEq, Prod.mk.injEq] at h
      obtain ⟨h2, h3⟩ := h
      subst h3
      simp only [List.length_nil]
      omega
    · exact absurd h (by simp)
  · exact absurd h (by simp)

theorem rightHeavyMatcher_wf : MatcherWF rightHeavyMatcher := by
  intro s i len repl h
  simp only [rightHeavyMatcher] at h
  split at h
  · rename_i h1
    simp only [Option.some.injEq, Prod.mk.injEq] at h
    obtain ⟨h2, -⟩ := h
    simp only [Bool.and_eq_true] at h1
    have := getBeq_lt h1.1.2
    omega
  · exact absurd h (by simp)

theorem rightHeavyMatcher_shrinks : MatcherShrinks rightHeavyMatcher := by
  intro s i len repl h
  simp only [rightHeavyMatcher] at h
  split at h
  · simp only [Option.some.injEq, Prod.mk.injEq] at h
    obtain ⟨h2, h3⟩ := h
    subst h3
    simp only [List.length_nil]
    omega
  · exact absurd h (by simp)

theorem badLinksGo_le {s : Str} {fuel : Nat} {mode : Bool} {p e : Nat}
    (h : badLinksGo s fuel mode p = some e) : p < e ∧ e ≤ s.length := by
  induction fuel generalizing mode p with
  | zero => simp [badLinksGo] at h
  | succ fuel ih =>
    cases mode with
    | true =>
      unfold badLinksGo at h
      split at h
      · have := ih h
        omega
      · exact absurd h (by simp)
    | false =>
      unfold badLinksGo at h
      split at h
      · split at h
        · rename_i h1 h2
          simp only [Option.some.injEq] at h
          have := getBeq_lt h2
          omega
        · split at h
          · rename_i e0 hgo
            simp only [Option.some.injEq] at h
            subst h
            have := ih hgo
            omega
          · have := ih h
            omega
      · exact absurd h (by simp)

theorem badLinksW_le {s : Str} {fuel : Nat} {j e : Nat}
    (h : badLinksW s fuel j = some e) : j < e ∧ e ≤ s.length := by
  induction fuel generalizing j with
  | zero => simp [badLinksW] at h
  | succ fuel ih =>
    unfold badLinksW at h
    split at h
    · split at h
      · rename_i e0 hgo
        simp only [Option.some.injEq] at h
        subst h
        have := badLinksGo_le hgo
        omega
      · have := ih h
        omega
    · exact absurd h (by simp)

theorem badLinksDot_le {s : Str} {fuel : Nat} {j e : Nat}
    (h : badLinksDot s fuel j = some e) : j < e ∧ e ≤ s.length := by
  induction fuel generalizing j with
  | zero => simp [badLinksDot] at h
  | succ fuel ih =>
    unfold badLinksDot at h
    split at h
    · split at h
      · rename_i h1 h2
        simp only [Option.some.injEq] at h
        have := getBeq_lt h2
        omega
      · have := ih h
        omega
    · exact absurd h (by simp)

theorem badLinksAlt2W_le {s : Str} {fuel : Nat} {j e : Nat}
    (h : badLinksAlt2W s fuel j = some e) : j < e ∧ e ≤ s.length := by
  induction fuel generalizing j with
  | zero => simp [badLinksAlt2W] at h
  | succ fuel ih =>
    unfold badLinksAlt2W at h
    split at h
    · split at h
      · split at h
        · rename_i e0 hgo
          simp only [Option.some.injEq] at h
          subst h
          have := badLinksDot_le hgo
          omega
        · have := ih h
          omega
      · have := ih h
        omega
    · exact absurd h (by simp)

theorem badLinksMatcher_wf : MatcherWF badLinksMatcher := by
  intro s i len repl h
  simp only [badLinksMatcher] at h
  split at h
  · split at h
    · rename_i e hw
      simp only [Option.some.injEq, Prod.mk.injEq] at h
      obtain ⟨h2, -⟩ := h
      have := badLinksW_le hw
      omega
    · split at h
      · rename_i e ha
        simp only [Option.some.injEq, Prod.mk.injEq] at h
        obtain ⟨h2, -⟩ := h
        have := badLinksAlt2W_le ha
        omega
      · exact absurd h (by simp)
  · exact absurd h (by simp)

theorem badLinksMatcher_shrinks : MatcherShrinks badLinksMatcher := by
  intro s i len repl h
  simp only [badLinksMatcher] at h
  split at h
  · split at h
    · rename_i e hw
      simp only [Option.some.injEq, Prod.mk.injEq] at h
      obtain ⟨h2, h3⟩ := h
      subst h3
      have := badLinksW_le hw
      simp only [List.length_nil]
      omega
    · split at h
      · rename_i e ha
        simp only [Option.some.injEq, Prod.mk.injEq] at h
        obtain ⟨h2, h3⟩ := h
        subst h3
        have := badLinksAlt2W_le ha
        simp only [List.length_nil]
        omega
      · exact absurd h (by simp)
  · exact absurd h (by simp)

theorem emptyBracketsMatcher_wf : MatcherWF emptyBracketsMatcher := by
  intro s i len repl h
  simp only [emptyBracketsMatcher] at h
  split at h
  · rename_i h1
    simp only [Option.some.injEq, Prod.mk.injEq] at h
    obtain ⟨h2, -⟩ := h
    rcases Bool.or_eq_true_iff.mp h1 with h3 | h3 <;>
      · simp only [Bool.and_eq_true] at h3
        have := getBeq_lt h3.2
        omega
  · exact absurd h (by simp)

theorem emptyBracketsMatcher_shrinks : MatcherShrinks emptyBracketsMatcher := by
  intro s i len repl h
  simp only [emptyBracketsMatcher] at h
  split at h
  · simp only [Option.some.injEq, Prod.mk.injEq] at h
    obtain ⟨h2, h3⟩ := h
    subst h3
    simp only [List.length_nil]
    omega
  · exact absurd h (by simp)

theorem emptyCommasReps_le {s : Str} {fuel j : Nat} :
    emptyCommasReps s fuel j = 0 ∨ j + 2 * emptyCommasReps s fuel j ≤ s.length := by
  induction fuel generalizing j with
  | zero => left; rfl
  | succ fuel ih =>
    unfold emptyCommasReps
    split
    · rename_i h1
      simp only [Bool.and_eq_true] at h1
      have hlt := getBeq_lt h1.2
      rcases @ih (j + 2) with h2 | h2
      · right; omega
      · right; omega
    · left; rfl

theorem emptyCommasMatcher_wf : MatcherWF emptyCommasMatcher := by
  intro s i len repl h
  simp only [emptyCommasMatcher] at h
  split at h
  · split at h
    · rename_i h1 h2
      simp only [Option.some.injEq, Prod.mk.injEq] at h
      obtain ⟨h3, -⟩ := h
      rcases @emptyCommasReps_le s (s.length + 1) (i + 1) with h4 | h4
      · omega
      · omega
    · exact absurd h (by simp)
  · exact absurd h (by simp)

theorem emptyCommasMatcher_shrinks : MatcherShrinks emptyCommasMatcher := by
  intro s i len repl h
  simp only [emptyCommasMatcher] at h
  split at h
  · split at h
    · rename_i h1 h2
      simp only [Option.some.injEq, Prod.mk.injEq] at h
      obtain ⟨h3, h4⟩ := h
      subst h4
      simp only [List.length_cons, List.length_nil]
      omega
    · exact absurd h (by simp)
  · exact absurd h (by simp)

theorem isPyWsAt_lt {s : Str} {j : Nat} (h : isPyWsAt s j = true) : j < s.length :=
  charSatAt_lt (by simpa [isPyWsAt] using h)

theorem loneCommaLeftMatcher_wf : MatcherWF loneCommaLeftMatcher := by
  intro s i len repl h
  simp only [loneCommaLeftMatcher] at h
  split at h
  · rename_i h1
    simp only [Option.some.injEq, Prod.mk.injEq] at h
    obtain ⟨hl, -⟩ := h
    simp only [Bool.and_eq_true] at h1
    have := getBeq_lt h1.2
    omega
  · split at h
    · rename_i h1 h2
      simp only [Option.some.injEq, Prod.mk.injEq] at h
      obtain ⟨hl, -⟩ := h
      simp only [Bool.and_eq_true] at h2
      have := getBeq_lt h2.2
      omega
    · split at h
      · rename_i h1 h2 h3
        simp only [Option.some.injEq, Prod.mk.injEq] at h
        obtain ⟨hl, -⟩ := h
        simp only [Bool.and_eq_true] at h3
        have := getBeq_lt h3.2
        omega
      · split at h
        · rename_i h1 h2 h3 h4
          simp only [Option.some.injEq, Prod.mk.injEq] at h
          obtain ⟨hl, -⟩ := h
          simp only [Bool.and_eq_true] at h4
          have := getBeq_lt h4.2
          omega
        · exact absurd h (by simp)

theorem loneCommaLeftMatcher_shrinks : MatcherShrinks loneCommaLeftMatcher := by
  intro s i len repl h
  simp only [loneCommaLeftMatcher] at h
  split at h
  · injection h with hp
    injection hp with h1 h2
    subst h1
    subst h2
    simp only [List.length_cons, List.length_nil]
    omega
  · split at h
    · injection h with hp
      injection hp with h1 h2
      subst h1
      subst h2
      simp only [List.length_cons, List.length_nil]
      omega
    · split at h
      · injection h with hp
        injection hp with h1 h2
        subst h1
        subst h2
        simp only [List.length_cons, List.length_nil]
        omega
      · split at h
        · injection h with hp
          injection hp with h1 h2
          subst h1
          subst h2
          simp only [List.length_cons, List.length_nil]
          omega
        · exact absurd h (by simp)

theorem loneCommaRightMatcher_wf : MatcherWF loneCommaRightMatcher := by
  intro s i len repl h
  simp only [loneCommaRightMatcher] at h
  split at h
  · rename_i h1
    simp only [Option.some.injEq, Prod.mk.injEq] at h
    obtain ⟨hl, -⟩ := h
    simp only [Bool.and_eq_true] at h1
    have := isPyWsAt_lt h1.2
    omega
  · split at h
    · rename_i h1 h2
      simp only [Option.some.injEq, Prod.mk.injEq] at h
      obtain ⟨hl, -⟩ := h
      simp only [Bool.and_eq_true] at h2
      have := getBeq_lt h2.2
      omega
    · split at h
      · rename_i h1 h2 h3
        simp only [Option.some.injEq, Prod.mk.injEq] at h
        obtain ⟨hl, -⟩ := h
        simp only [Bool.and_eq_true] at h3
        have := isPyWsAt_lt h3.2
        omega
      · split at h
        · rename_i h1 h2 h3 h4
          simp only [Option.some.injEq, Prod.mk.injEq] at h
          obtain ⟨hl, -⟩ := h
          simp only [Bool.and_eq_true] at h4
          have := getBeq_lt h4.2
          omega
        · exact absurd h (by simp)

theorem loneCommaRightMatcher_shrinks : MatcherShrinks loneCommaRightMatcher := by
  intro s i len repl h
  simp only [loneCommaRightMatcher] at h
  split at h
  · injection h with hp
    injection hp with h1 h2
    subst h1
    subst h2
    simp only [List.length_cons, List.length_nil]
    omega
  · split at h
    · injection h with hp
      injection hp with h1 h2
      subst h1
      subst h2
      simp only [List.length_cons, List.length_nil]
      omega
    · split at h
      · injection h with hp
        injection hp with h1 h2
        subst h1
        subst h2
        simp only [List.length_cons, List.length_nil]
        omega
      · split at h
        · injection h with hp
          injection hp with h1 h2
          subst h1
          subst h2
          simp only [List.length_cons, List.length_nil]
          omega
        · exact absurd h (by simp)


/-! ### Dichotomy for the cleanup pass and loop -/

theorem dichotomy_step {t a b : Str}
    (h1 : a = t ∨ a.length < t.length) (h2 : b = a ∨ b.length < a.length) :
    b = t ∨ b.length < t.length := by
  rcases h1 with rfl | h1
  · exact h2
  · rcases h2 with rfl | h2
    · right; exact h1
    · right; omega

theorem cleanupSubs_wf : ∀ m ∈ cleanupSubs, MatcherWF m ∧ MatcherShrinks m := by
  intro m hm
  simp only [cleanupSubs, List.mem_cons, List.not_mem_nil, or_false] at hm
  rcases hm with rfl | rfl | rfl | rfl | rfl | rfl | rfl | rfl | rfl | rfl | rfl | rfl |
    rfl | rfl | rfl | rfl | rfl | rfl
  · exact ⟨classRunMatcher_wf _ _ _ (by omega), classRunMatcher_shrinks _ _ _ (by decide)⟩
  · exact ⟨classRunMatcher_wf _ _ _ (by omega), classRunMatcher_shrinks _ _ _ (by decide)⟩
  · exact ⟨punctLineMatcher_wf, punctLineMatcher_shrinks⟩
  · exact ⟨underscoreNameMatcher_wf, underscoreNameMatcher_shrinks⟩
  · exact ⟨rightHeavyMatcher_wf, rightHeavyMatcher_shrinks⟩
  · exact ⟨badLinksMatcher_wf, badLinksMatcher_shrinks⟩
  · exact ⟨classRunMatcher_wf _ _ _ (by omega), classRunMatcher_shrinks _ _ _ (by decide)⟩
  · exact ⟨emptyBracketsMatcher_wf, emptyBracketsMatcher_shrinks⟩
  · exact ⟨litMatcher_wf (by decide), litMatcher_shrinks (by decide)⟩
  · exact ⟨classRunMatcher_wf _ _ _ (by omega), classRunMatcher_shrinks _ _ _ (by decide)⟩
  · exact ⟨litMatcher_wf (by decide), litMatcher_shrinks (by decide)⟩
  · exact ⟨litMatcher_wf (by decide), litMatcher_shrinks (by decide)⟩
  · exact ⟨emptyCommasMatcher_wf, emptyCommasMatcher_shrinks⟩
  · exact ⟨loneCommaLeftMatcher_wf, loneCommaLeftMatcher_shrinks⟩
  · exact ⟨loneCommaRightMatcher_wf, loneCommaRightMatcher_shrinks⟩
  · exact ⟨litMatcher_wf (by decide), litMatcher_shrinks (by decide)⟩
  · exact ⟨litMatcher_wf (by decide), litMatcher_shrinks (by decide)⟩
  · exact ⟨classRunMatcher_wf _ _ _ (by omega), classRunMatcher_shrinks _ _ _ (by decide)⟩

theorem foldl_gsub_dichotomy :
    ∀ (subs : List Matcher), (∀ m ∈ subs, MatcherWF m ∧ MatcherShrinks m) →
    ∀ t : Str, subs.foldl (fun acc m => gsub m acc) t = t ∨
      (subs.foldl (fun acc m => gsub m acc) t).length < t.length := by
  intro subs
  induction subs with
  | nil => intro _ t; left; rfl
  | cons m ms ih =>
    intro hall t
    have hm := hall m (List.mem_cons_self m ms)
    have h1 := gsub_dichotomy hm.1 hm.2 t
    have h2 := ih (fun m2 hm2 => hall m2 (List.mem_cons_of_mem _ hm2)) (gsub m t)
    simpa [List.foldl_cons] using dichotomy_step h1 h2

/-- One pass either leaves the text unchanged or strictly shortens it:
every substitution in the pass replaces each match by something strictly
shorter. -/
theorem cleanupPass_dichotomy (t : Str) :
    cleanupPass t = t ∨ (cleanupPass t).length < t.length :=
  foldl_gsub_dichotomy cleanupSubs cleanupSubs_wf t

theorem cleanupPass_length_le (t : Str) : (cleanupPass t).length ≤ t.length := by
  rcases cleanupPass_dichotomy t with h | h
  · rw [h]
  · omega

theorem cleanupPass_eq_of_length {t : Str} (h : (cleanupPass t).length = t.length) :
    cleanupPass t = t := by
  rcases cleanupPass_dichotomy t with h2 | h2
  · exact h2
  · omega

theorem cleanupLoopAux_succ (fuel : Nat) (t : Str) :
    cleanupLoopAux (fuel + 1) t =
      if (cleanupPass t).length = t.length then cleanupPass t
      else cleanupLoopAux fuel (cleanupPass t) := rfl

/-- With enough fuel, the loop returns a text on which one more pass is a
no-op: the length-based exit condition implies a textual fixed point. -/
theorem cleanupLoopAux_fix : ∀ (fuel : Nat) (t : Str), t.length < fuel →
    cleanupPass (cleanupLoopAux fuel t) = cleanupLoopAux fuel t := by
  intro fuel
  induction fuel with
  | zero => intro t ht; omega
  | succ fuel ih =>
    intro t ht
    rw [cleanupLoopAux_succ]
    by_cases hlen : (cleanupPass t).length = t.length
    · have heq := cleanupPass_eq_of_length hlen
      rw [if_pos hlen, heq, heq]
    · rw [if_neg hlen]
      have hd := cleanupPass_dichotomy t
      have hlt : (cleanupPass t).length < t.length := by
        rcases hd with heq | hlt
        · exact absurd (by rw [heq]) hlen
        · exact hlt
      exact ih (cleanupPass t) (by omega)

/-! ### Compaction of heading-only documents -/

theorem compactGo_no_output {lines : List Str}
    (hall : ∀ l ∈ lines, l.isEmpty = true ∨ (sectionM l).isSome = true) :
    ∀ hs es, compactGo false lines [] hs es = [] := by
  induction lines with
  | nil => intro hs es; rfl
  | cons line rest ih =>
    intro hs es
    have hl := hall line (List.mem_cons_self line rest)
    have ihr := ih fun l hl2 => hall l (List.mem_cons_of_mem _ hl2)
    unfold compactGo
    by_cases hemp : line.isEmpty
    · rw [if_pos hemp]
      exact ihr hs es
    · rw [if_neg hemp]
      rcases hl with hemp2 | hsec
      · exact absurd hemp2 hemp
      · cases hsm : sectionM line with
        | none => rw [hsm] at hsec; simp at hsec
        | some lt =>
          simp only [hsm]
          exact ihr _ _

/-! ## Claim theorems -/

set_option maxHeartbeats 4000000 in
/-- C1 (counterexample): the claimed iff is false at the sink.  Both pages of
this stream are non-redirects with prefix-free titles, so the claim requires
both to be emitted; but the first page's body is the character reference
`&#1114112;`, on which `clean` raises `ValueError` before anything is
written, so the sink receives no lines at all — neither for that page nor
for the well-formed page after it. -/
theorem page_emitted_claim_false :
    pageAccepted ⟨"Bad".data, false, "&#1114112;".data⟩ = true ∧
      pageAccepted ⟨"Good".data, false, "x".data⟩ = true ∧
      processOutput [⟨"Bad".data, false, "&#1114112;".data⟩,
        ⟨"Good".data, false, "x".data⟩] = [] := by
  refine ⟨by decide, by decide, by decide⟩

set_option maxHeartbeats 4000000 in
/-- C1 (amended): provided `clean` succeeds on every accepted page's body,
the sink stream is exactly the concatenation of the per-page blocks of the
accepted pages — so under that proviso a page is emitted iff it is not a
redirect and its title's prefix (if any) is absent or in the accepted set,
which is empty in this revision, i.e. iff the title has no colon; in
particular redirect pages and prefixed pages never produce output.  Without
the proviso the iff fails: an accepted page on whose body `clean` raises
writes nothing, and the propagating exception silences every later page as
well. -/
theorem page_emitted_characterization (ps rest : List Page) (bad : Page)
    (hok : ∀ p ∈ ps, pageAccepted p = true → (cleanE p.body).isSome = true)
    (hbad : pageAccepted bad = true) (hfail : cleanE bad.body = none) :
    processOutput ps = ((ps.filter pageAccepted).map pageBlock).flatten ∧
      processOutput (bad :: rest) = [] := by
  constructor
  · induction ps with
    | nil => rfl
    | cons p ps ih =>
      have ihr := ih fun q hq hacc => hok q (List.mem_cons_of_mem _ hq) hacc
      by_cases hacc : pageAccepted p = true
      · have hsome := hok p (List.mem_cons_self p ps) hacc
        obtain ⟨ct, hct⟩ := Option.isSome_iff_exists.mp hsome
        have hw : wikiDocLines p.title p.body =
            some (("<<<".data ++ p.title ++ ">>>".data) :: compact ct false) := by
          unfold wikiDocLines
          rw [hct]
        unfold processOutput
        rw [if_pos hacc, hw, List.filter_cons_of_pos hacc, List.map_cons,
          List.flatten_cons, ihr]
        simp only [emitOrAbort, pageBlock, hw, Option.getD_some]
      · unfold processOutput
        rw [if_neg hacc, List.filter_cons_of_neg hacc]
        exact ihr
  · have hw : wikiDocLines bad.title bad.body = none := by
      unfold wikiDocLines
      rw [hfail]
    unfold processOutput
    rw [if_pos hbad, hw]
    rfl

set_option maxHeartbeats 4000000 in
theorem page_emitted_characterization_witness :
    processOutput [⟨"Good".data, false, "x".data⟩] =
      ((([⟨"Good".data, false, "x".data⟩] : List Page).filter
        pageAccepted).map pageBlock).flatten ∧
      processOutput (⟨"Bad".data, false, "&#1114112;".data⟩ ::
        [⟨"Another".data, false, "y".data⟩]) = [] :=
  page_emitted_characterization [⟨"Good".data, false, "x".data⟩]
    [⟨"Another".data, false, "y".data⟩] ⟨"Bad".data, false, "&#1114112;".data⟩
    (by decide) (by decide) (by decide)

/-- C7 (counterexample): `normalize_title` does not map `"  category:  births"`
to `"Category:Births"`; the text after the colon keeps its case and keeps one
space. -/
theorem normalize_title_claim_false :
    normalize_title "  category:  births".data ≠ "Category:Births".data := by
  decide

/-- C7 (amended): `normalize_title "foo_bar" = "Foo bar"`, and
`normalize_title "  category:  births" = "Category: births"` — the namespace
part is capitalized, but the collapsed whitespace after the colon is kept as
one space and the remainder keeps its original case (the source interpolates
`m.group(3)` without capitalizing it). -/
theorem normalize_title_values :
    normalize_title "foo_bar".data = "Foo bar".data ∧
      normalize_title "  category:  births".data = "Category: births".data := by
  constructor <;> decide

/-- C8: `drop_spans` applied to any permutation of a pairwise non-overlapping
span set yields the same result — the concatenation, in start-offset order, of
the text outside the spans (the function sorts its spans first, and sorting is
permutation-invariant). -/
theorem drop_spans_perm_invariant (l1 l2 : List (Nat × Nat)) (text : Str)
    (hperm : l1.Perm l2)
    (hdisj : l1.Pairwise (fun a b => a.2 ≤ b.1 ∨ b.2 ≤ a.1)) :
    drop_spans l1 text = drop_spans l2 text := by
  have hs : sortSpans l1 = sortSpans l2 := by
    apply @List.eq_of_perm_of_sorted (Nat × Nat) spanLe _ _ _
    · exact ((List.perm_insertionSort spanLe l1).trans hperm).trans
        (List.perm_insertionSort spanLe l2).symm
    · exact List.sorted_insertionSort spanLe l1
    · exact List.sorted_insertionSort spanLe l2
  unfold drop_spans
  rw [hs]

theorem drop_spans_perm_invariant_witness :
    drop_spans [(5, 7), (1, 2)] "abcdefghij".data =
      drop_spans [(1, 2), (5, 7)] "abcdefghij".data :=
  drop_spans_perm_invariant [(5, 7), (1, 2)] [(1, 2), (5, 7)] "abcdefghij".data
    (by decide) (by decide)

/-- C2: `drop_nested` removes exactly the top-level delimited spans.  For a
text containing exactly one (hence balanced, non-nested) `open…close` pair
embedded in arbitrary surrounding text, the span from the open delimiter
through the close delimiter is removed exactly, and the surrounding text is
preserved verbatim and in order.  For the nested balanced text `"{{ {{ }} }}"`
the accumulated span list is the single span `(0, 11)` — the whole outer
region removed as one unit, not two separate deletions — and the result is
empty. -/
theorem drop_nested_exact (pre mid post openD closeD : Str)
    (ho : openD ≠ []) (hc : closeD ≠ [])
    (huo : ∀ i, i ≤ (pre ++ openD ++ mid ++ closeD ++ post).length →
      (occursAtB (pre ++ openD ++ mid ++ closeD ++ post) openD i = true ↔
        i = pre.length))
    (huc : ∀ i, i ≤ (pre ++ openD ++ mid ++ closeD ++ post).length →
      (occursAtB (pre ++ openD ++ mid ++ closeD ++ post) closeD i = true ↔
        i = pre.length + openD.length + mid.length)) :
    drop_nested (pre ++ openD ++ mid ++ closeD ++ post) openD closeD = pre ++ post ∧
      dnMatches "\x7b\x7b \x7b\x7b \x7d\x7d \x7d\x7d".data "\x7b\x7b".data "\x7d\x7d".data = [(0, 11)] ∧
      drop_nested "\x7b\x7b \x7b\x7b \x7d\x7d \x7d\x7d".data "\x7b\x7b".data "\x7d\x7d".data = "".data := by
  refine ⟨?_, by decide, by decide⟩
  have hTlen : (pre ++ openD ++ mid ++ closeD ++ post).length =
      pre.length + openD.length + mid.length + closeD.length + post.length := by
    simp only [List.length_append]
  have holen : 1 ≤ openD.length := List.length_pos.mpr ho
  have hclen : 1 ≤ closeD.length := List.length_pos.mpr hc
  have hre : pre ++ openD ++ mid ++ closeD ++ post =
      pre ++ (openD ++ (mid ++ (closeD ++ post))) := by simp [List.append_assoc]
  have hop : occursAtB (pre ++ openD ++ mid ++ closeD ++ post) openD pre.length = true := by
    rw [hre]
    exact occursAtB_append_exact pre openD (mid ++ (closeD ++ post))
  have hoq : occursAtB (pre ++ openD ++ mid ++ closeD ++ post) closeD
      (pre.length + openD.length + mid.length) = true := by
    have h2 : pre ++ openD ++ mid ++ closeD ++ post =
        (pre ++ openD ++ mid) ++ (closeD ++ post) := by simp [List.append_assoc]
    have h3 := occursAtB_append_exact (pre ++ openD ++ mid) closeD post
    rw [List.length_append, List.length_append] at h3
    rw [h2]
    exact h3
  have h1 : findFrom (pre ++ openD ++ mid ++ closeD ++ post) openD 0 = some pre.length := by
    apply findFrom_eq_some ho (Nat.zero_le _) hop
    intro k _ hk2
    cases hcc : occursAtB (pre ++ openD ++ mid ++ closeD ++ post) openD k with
    | false => rfl
    | true => exact absurd ((huo k (by omega)).mp hcc) (by omega)
  have h2 : findFrom (pre ++ openD ++ mid ++ closeD ++ post) openD
      (pre.length + openD.length) = none := by
    apply findFrom_eq_none ho
    intro k hk1 hk2
    cases hcc : occursAtB (pre ++ openD ++ mid ++ closeD ++ post) openD k with
    | false => rfl
    | true => exact absurd ((huo k hk2).mp hcc) (by omega)
  have h3 : findFrom (pre ++ openD ++ mid ++ closeD ++ post) closeD
      (pre.length + openD.length) = some (pre.length + openD.length + mid.length) := by
    apply findFrom_eq_some hc (by omega) hoq
    intro k hk1 hk2
    cases hcc : occursAtB (pre ++ openD ++ mid ++ closeD ++ post) closeD k with
    | false => rfl
    | true => exact absurd ((huc k (by omega)).mp hcc) (by omega)
  have hms : dnMatches (pre ++ openD ++ mid ++ closeD ++ post) openD closeD =
      [(pre.length, pre.length + openD.length + mid.length + closeD.length)] := by
    simp only [dnMatches, h1, h3, dnOuter, h2, dnCloseAll, List.nil_append]
  simp only [drop_nested, h1, hms, collectOutside, List.drop_zero, Nat.sub_zero]
  have htake : (pre ++ openD ++ mid ++ closeD ++ post).take pre.length = pre := by
    rw [hre]
    exact List.take_left pre (openD ++ (mid ++ (closeD ++ post)))
  have hdrop : (pre ++ openD ++ mid ++ closeD ++ post).drop
      (pre.length + openD.length + mid.length + closeD.length) = post := by
    have h5 := List.drop_left (pre ++ openD ++ mid ++ closeD) post
    rw [List.length_append, List.length_append, List.length_append] at h5
    exact h5
  rw [htake, hdrop]

theorem drop_nested_exact_witness :
    drop_nested ("a".data ++ "\x7b\x7b".data ++ "b".data ++ "\x7d\x7d".data ++ "c".data)
      "\x7b\x7b".data "\x7d\x7d".data = "a".data ++ "c".data :=
  (drop_nested_exact "a".data "b".data "c".data "\x7b\x7b".data "\x7d\x7d".data
    (by decide) (by decide) (by decide) (by decide)).1

/-- C10: if the text contains an open delimiter but no close delimiter at or
after the end of the first open occurrence, `drop_nested` returns the text
unchanged: the initial `close_re.search(text, start.end())` fails, the
`while end` loop never runs, and the empty span list reproduces the text. -/
theorem drop_nested_no_close_unchanged (text openD closeD : Str) (s : Nat)
    (hc : closeD ≠ [])
    (h1 : findFrom text openD 0 = some s)
    (h2 : ∀ j, j ≤ text.length → s + openD.length ≤ j →
      occursAtB text closeD j = false) :
    drop_nested text openD closeD = text := by
  have h3 : findFrom text closeD (s + openD.length) = none :=
    findFrom_eq_none hc fun k hk1 hk2 => h2 k hk2 hk1
  simp [drop_nested, dnMatches, h1, h3, collectOutside]

theorem drop_nested_no_close_unchanged_witness :
    drop_nested "\x7b\x7babc".data "\x7b\x7b".data "\x7d\x7d".data = "\x7b\x7babc".data :=
  drop_nested_no_close_unchanged "\x7b\x7babc".data "\x7b\x7b".data "\x7d\x7d".data 0
    (by decide) (by decide) (by decide)


set_option maxHeartbeats 4000000 in
/-- C5 (counterexample): step 10 of the `clean` pipeline (the one-time
substitutions followed by the fixed-point loop) is not idempotent.  On
`"<<MA__X__TH>>_"` the loop's `UNDERSCORE_NAME` substitution deletes
`"__X__"` and thereby assembles the placeholder marker `"<<MATH>>_"`, which
the loop leaves alone; re-running the stage lets the one-time
`PLACEHOLDER_TAGS` substitution delete it, so the second run changes the
text. -/
theorem cleanup_stage_not_idempotent :
    cleanupStage (cleanupStage "<<MA__X__TH>>_".data) ≠
      cleanupStage "<<MA__X__TH>>_".data := by
  decide

/-- C5 (amended): the fixed-point substitution loop itself is idempotent —
re-running the loop on its own output is a no-op, because the loop exits only
once a pass leaves the length (hence, by strict shrinking of every
substitution, the text) unchanged.  The full stage including the one-time
substitutions is not idempotent (see the counterexample). -/
theorem cleanup_loop_idempotent (t : Str) :
    cleanupLoop (cleanupLoop t) = cleanupLoop t := by
  have hfix : cleanupPass (cleanupLoop t) = cleanupLoop t :=
    cleanupLoopAux_fix (t.length + 1) t (by omega)
  have h2 : cleanupLoopAux ((cleanupLoop t).length + 1) (cleanupLoop t) =
      cleanupLoop t := by
    rw [cleanupLoopAux_succ, hfix]
    simp
  exact h2

/-- C6: the fixed-point cleanup loop terminates for every input: the pass
never lengthens the text, so after finitely many iterations a pass leaves the
output length unchanged; moreover the value returned by the loop as coded
(passes until the length stabilises) is a genuine fixed point of the pass. -/
theorem cleanup_loop_terminates (t : Str) :
    (∃ n : Nat, (cleanupPass^[n + 1] t).length = (cleanupPass^[n] t).length) ∧
      cleanupPass (cleanupLoop t) = cleanupLoop t := by
  constructor
  · by_contra hcon
    push_neg at hcon
    have hmono : ∀ n : Nat, (cleanupPass^[n + 1] t).length ≤ (cleanupPass^[n] t).length := by
      intro n
      rw [Function.iterate_succ_apply']
      exact cleanupPass_length_le _
    have hd : ∀ n : Nat, (cleanupPass^[n + 1] t).length < (cleanupPass^[n] t).length :=
      fun n => lt_of_le_of_ne (hmono n) (hcon n)
    have key : ∀ n : Nat, (cleanupPass^[n] t).length + n ≤ t.length := by
      intro n
      induction n with
      | zero => simp
      | succ n ih =>
        have := hd n
        omega
    have := key (t.length + 1)
    omega
  · exact cleanupLoopAux_fix (t.length + 1) t (by omega)

set_option maxHeartbeats 4000000 in
/-- C3 (code bug): `clean` is not total.  On the numeric character reference
`&#1114112;` (one past the greatest code point) the `fixup` callback in
`unescape` calls `chr(1114112)`, which raises `ValueError` and aborts the
whole document; the claim (and the repo's own, never-called `handle_unicode`
helper) expect such references to resolve to an empty result or stay verbatim
instead.  Non-digit numeric references such as `&#zz;` fail the same way
(`int('zz')` raises).  `none` models the raised exception. -/
theorem clean_raises_on_out_of_range_reference :
    cleanE "&#1114112;".data = none ∧ unescapeE "&#1114112;".data = none ∧
      unescapeE "&#zz;".data = none := by
  refine ⟨by decide, by decide, by decide⟩

set_option maxRecDepth 8000 in
set_option maxHeartbeats 8000000 in
/-- C4 (counterexample): on the minimal page (title `Example`, non-redirect,
body `'''bold''' and ''italic''`) the emitted output is not
`<<<Example>>>` followed by `bold and &quot;italic&quot;.` — step 5 of
`clean` unescapes `&quot;` to a plain double quote and the compactor adds no
terminal period to a body line. -/
theorem wiki_document_example_claim_false :
    wikiDocLines "Example".data "'''bold''' and ''italic''".data ≠
      some ["<<<Example>>>".data, "bold and &quot;italic&quot;.".data] := by
  decide

set_option maxRecDepth 8000 in
set_option maxHeartbeats 8000000 in
/-- C4 (amended): the emitted output is the line `<<<Example>>>` followed by
the line `bold and "italic"` — the quote markup becomes `&quot;` entities
which the entity-unescaping step then turns into literal double quotes, and
body lines receive no terminal punctuation from the compactor.  The same
output results when the body carries the trailing newline that the page
scanner appends to text lines. -/
theorem wiki_document_example_output :
    wikiDocLines "Example".data "'''bold''' and ''italic''".data =
      some ["<<<Example>>>".data, "bold and \"italic\"".data] ∧
      wikiDocLines "Example".data "'''bold''' and ''italic''\n".data =
        some ["<<<Example>>>".data, "bold and \"italic\"".data] := by
  refine ⟨by decide, by decide⟩

/-- C9: a document whose cleaned text consists only of section heading lines
and blank lines produces no output lines: heading lines only record pending
headers, and pending headers are flushed only when a surviving body line
arrives. -/
theorem compact_heading_only_no_output (text : Str)
    (hall : ∀ l ∈ splitNl text, l.isEmpty = true ∨ (sectionM l).isSome = true) :
    compact text false = [] :=
  compactGo_no_output hall [] false

theorem compact_heading_only_no_output_witness :
    compact "== Empty ==\n\n=== Sub ===".data false = [] :=
  compact_heading_only_no_output "== Empty ==\n\n=== Sub ===".data (by decide)

end WikiExtractor
